import Mathlib

/-!
# Store merge of the `state` package (`state/merge.go`)

A shallow embedding of `Builder.Merge` and of the helpers it calls, followed by
theorems about the merge laws of the store engine.

Modelling conventions used throughout:

* A Go `string` and a Go `[]byte` are both modelled as a Lean `String`; the
  conversions `[]byte(s)` and `string(b)` are the identity.
* A Go `map[string][]byte` is modelled as a list of key/value pairs without
  repeated keys (`KV`).  The order of the list stands for the order in which a
  `for k, v := range m` loop visits the map; every theorem is stated for all
  such lists, hence for every iteration order.
* `uint64` values are natural numbers below `2 ^ 64`, `int64` and `*big.Int`
  values are integers; the conversion `uint64(x)` is `x % 2 ^ 64`.
* `float64`, `*big.Float` and `encoding/json` are library code whose exact
  results are not reproduced here; the operations that `Merge` uses are the
  fields of `GoLib` and every theorem holds for every such library.
* A Go panic is the result `MergeResult.panicked`.
-/

namespace State

/-! ## Byte maps -/

/-- First value stored under `k` in a list of pairs. -/
def lookupKey (k : String) : List (String × String) → Option String
  | [] => none
  | (k', v) :: rest => if k' = k then some v else lookupKey k rest

/-- A Go `map[string][]byte`: pairs in iteration order, no key twice. -/
structure KV where
  entries : List (String × String)
  nodup : (entries.map Prod.fst).Nodup

namespace KV

/-- The empty map `map[string][]byte{}`. -/
def empty : KV := ⟨[], List.nodup_nil⟩

/-- Lookup `v, found := m[k]`: `none` stands for `found == false`. -/
def get (m : KV) (k : String) : Option String := lookupKey k m.entries

/-- Removal `delete(m, k)`. -/
def delete (m : KV) (k : String) : KV :=
  ⟨m.entries.filter (fun e => decide (e.1 ≠ k)),
    m.nodup.sublist (List.Sublist.map Prod.fst (List.filter_sublist m.entries))⟩

/-- Assignment `m[k] = v`. -/
def set (m : KV) (k v : String) : KV :=
  ⟨(k, v) :: (m.delete k).entries,
    List.nodup_cons.mpr ⟨by simp [delete, List.mem_map, List.mem_filter], (m.delete k).nodup⟩⟩

/-- Keeps the entries whose key satisfies `p`. -/
def filterKeys (m : KV) (p : String → Bool) : KV :=
  ⟨m.entries.filter (fun e => p e.1),
    m.nodup.sublist (List.Sublist.map Prod.fst (List.filter_sublist m.entries))⟩

/-- Map built by assigning the given pairs one after the other. -/
def ofList (l : List (String × String)) : KV :=
  l.foldl (fun m e => m.set e.1 e.2) empty

end KV

/-! ## Decimal text (`strconv`, `fmt`) -/

/-- Value of a decimal digit byte; `none` for every other byte. -/
def digitVal (c : Char) : Option Nat :=
  if '0' ≤ c ∧ c ≤ '9' then some (c.toNat - 48) else none

/-- Digit loop of `strconv.ParseUint` in base 10, without the overflow test. -/
def parseDigits : Nat → List Char → Option Nat
  | n, [] => some n
  | n, c :: cs =>
    match digitVal c with
    | none => none
    | some d => parseDigits (n * 10 + d) cs

/-- Base-10 `strconv.ParseUint` over unbounded naturals: the empty string and any
string with a byte that is not a digit are syntax errors (`none`). -/
def parseUnsigned (s : List Char) : Option Nat :=
  match s with
  | [] => none
  | c :: cs => parseDigits 0 (c :: cs)

/-- Model of `strconv.ParseInt(s, 10, 64)`; `none` stands for `err != nil`.

An optional leading `+` or `-` is followed by a non-empty run of decimal digits;
the value must lie in `[-2^63, 2^63 - 1]`, otherwise the call reports a range
error. -/
def ParseInt (s : String) : Option Int :=
  match s.data with
  | [] => none
  | c :: cs =>
    let neg : Bool := decide (c = '-')
    let digits := if c = '+' ∨ c = '-' then cs else c :: cs
    match parseUnsigned digits with
    | none => none
    | some un =>
      if neg = false ∧ un ≥ 2 ^ 63 then none
      else if neg = true ∧ un > 2 ^ 63 then none
      else some (if neg then -(un : Int) else (un : Int))

/-- Character of a decimal digit. -/
def digitChar (d : Nat) : Char := Char.ofNat (48 + d)

/-- Decimal digits of `n`, most significant first, put in front of `acc`. The
first argument bounds the number of digits produced. -/
def toDigits : Nat → Nat → List Char → List Char
  | 0, _, acc => acc
  | fuel + 1, n, acc =>
    if n / 10 = 0 then digitChar (n % 10) :: acc
    else toDigits fuel (n / 10) (digitChar (n % 10) :: acc)

/-- Text of `fmt.Sprintf("%d", n)` for an unsigned `n`. -/
def formatUint (n : Nat) : String := ⟨toDigits (n + 1) n []⟩

/-- Text of `fmt.Sprintf("%d", i)` and of `i.String()` for a `*big.Int` (and for
a signed machine integer): a minus sign for negative values, then the digits. -/
def formatInt (i : Int) : String :=
  if i < 0 then ⟨'-' :: toDigits (i.natAbs + 1) i.natAbs []⟩ else formatUint i.toNat

/-- Conversion `uint64(val)` of an `int64`. -/
def toUint64 (val : Int) : Nat := (val % 2 ^ 64).toNat

/-! ## Stores -/

/-- Modelled from the spec: the enum `pbsubstreams.Module_KindStore_UpdatePolicy`,
whose declaration is not part of the sources at hand. `REPLACE` is the policy
SET, `IGNORE` is SET_IF_NOT_EXISTS and `SUM` is ADD. -/
inductive UpdatePolicy
  | UNSET
  | REPLACE
  | IGNORE
  | SUM
  | MIN
  | MAX
  | APPEND
  deriving DecidableEq, Repr

def OutputValueTypeInt64 : String := "int64"
def OutputValueTypeFloat64 : String := "float64"
def OutputValueTypeBigInt : String := "bigInt"
def OutputValueTypeBigFloat : String := "bigFloat"
def OutputValueTypeString : String := "string"

/-- The reserved key under which the merge values are kept. -/
def mergeValuesKey : String := "__!__metadata"

/-- The struct `mergeInfo` that `writeMergeValues` encodes. -/
structure mergeInfo where
  StoreName : String
  UpdatePolicy : UpdatePolicy
  ValueType : String
  ModuleHash : String
  ModuleStartBlock : Nat

/-- Half-open block range `[StartBlock, ExclusiveEndBlock)` (`block.Range`). -/
structure BlockRange where
  StartBlock : Nat
  ExclusiveEndBlock : Nat
  deriving DecidableEq, Repr

/-- Modelled from the spec: the struct `Builder`, whose declaration is not part of
the sources at hand; these are the fields that `merge.go` reads or writes. The
pointer `BlockRange` is taken not to be nil. -/
structure Builder where
  Name : String
  ModuleStartBlock : Nat
  ModuleHash : String
  KV : KV
  DeletedPrefixes : List String
  updatePolicy : UpdatePolicy
  valueType : String
  lastOrdinal : Nat
  partialMode : Bool
  BlockRange : BlockRange

/-- Library operations on `float64`, `*big.Float` and JSON that `Merge` relies on.
A result `none` stands for an error or a panic of the library call, as said
for each field. -/
structure GoLib where
  /-- Values of Go type `float64`. -/
  Float64 : Type
  /-- Values of Go type `*big.Float` at precision 100. -/
  BigFloat : Type
  /-- The call `strconv.ParseFloat(s, 64)`; `none` when `err != nil`. -/
  parseFloat : String → Option Float64
  /-- The constant `float64(0)`. -/
  zeroFloat : Float64
  /-- The sum `a + b` of two `float64`. -/
  addFloat : Float64 → Float64 → Float64
  /-- The comparison `a < b` of two `float64`. -/
  ltFloat : Float64 → Float64 → Bool
  /-- The call `big.NewFloat(f).Text(g, -1)`; `none` when `NewFloat` panics. -/
  floatText : Float64 → Option String
  /-- The call `big.ParseFloat(s, 10, 100, big.ToNearestEven)` followed by
  `SetPrec(100)`; `none` when `err != nil`. -/
  parseBigFloat : String → Option BigFloat
  /-- The value `bf()`, a zero at precision 100. -/
  zeroBigFloat : BigFloat
  /-- The call `bf().Add(a, b).SetPrec(100)`; `none` when `Add` panics. -/
  addBigFloat : BigFloat → BigFloat → Option BigFloat
  /-- The call `a.Cmp(b)`. -/
  cmpBigFloat : BigFloat → BigFloat → Int
  /-- The call `f.Text(g, -1)` on a `*big.Float`. -/
  bigFloatText : BigFloat → String
  /-- The call `json.Marshal(mergeInfo)`, which cannot fail on this struct. -/
  jsonMarshal : mergeInfo → String

/-- Go `strings.HasPrefix(key, p)`. -/
def hasPrefix (key p : String) : Bool := p.data.isPrefixOf key.data

/-- Whether one of the prefixes is a prefix of the key. -/
def coveredBy (prefixes : List String) (key : String) : Bool :=
  prefixes.any (fun p => hasPrefix key p)

/-- Modelled from the spec: `Builder.DeletePrefix(ord, p)`, whose body is not part
of the sources at hand. It records the ordinal and removes every key that
starts with `p`; the deltas it emits are not part of this model. -/
def Builder.DeletePrefix (b : Builder) (ord : Nat) (p : String) : Builder :=
  { b with lastOrdinal := ord, KV := b.KV.filterKeys (fun key => !hasPrefix key p) }

/-- Method `writeMergeValues`: stores the encoded merge values under the reserved key. -/
def Builder.writeMergeValues (lib : GoLib) (b : Builder) : Builder :=
  let info : mergeInfo :=
    { StoreName := b.Name
      UpdatePolicy := b.updatePolicy
      ValueType := b.valueType
      ModuleHash := b.ModuleHash
      ModuleStartBlock := b.ModuleStartBlock }
  { b with KV := b.KV.set mergeValuesKey (lib.jsonMarshal info) }

/-- Method `clearMergeValues`: `delete(b.KV, mergeValuesKey)`. -/
def Builder.clearMergeValues (b : Builder) : Builder :=
  { b with KV := b.KV.delete mergeValuesKey }

/-- Function `foundOrZeroUint64`. -/
def foundOrZeroUint64 (input : String) (found : Bool) : Nat :=
  if !found then 0
  else
    match ParseInt input with
    | none => 0
    | some val => toUint64 val

/-- Function `strToBigInt`; `none` stands for its panic. -/
def strToBigInt (input : String) : Option Int :=
  match ParseInt input with
  | none => none
  | some i64 => some i64

/-- Function `bytesToBigInt`. -/
def bytesToBigInt (input : String) : Option Int := strToBigInt input

/-- Function `foundOrZeroBigInt`; `none` stands for a panic. -/
def foundOrZeroBigInt (input : String) (found : Bool) : Option Int :=
  if !found then some 0 else bytesToBigInt input

/-- Function `foundOrZeroFloat`. -/
def foundOrZeroFloat (lib : GoLib) (input : String) (found : Bool) : lib.Float64 :=
  if !found then lib.zeroFloat
  else
    match lib.parseFloat input with
    | none => lib.zeroFloat
    | some f => f

/-- Function `strToBigFloat`; `none` stands for its panic. -/
def strToBigFloat (lib : GoLib) (input : String) : Option lib.BigFloat :=
  lib.parseBigFloat input

/-- Function `bytesToBigFloat`. -/
def bytesToBigFloat (lib : GoLib) (input : String) : Option lib.BigFloat :=
  strToBigFloat lib input

/-- Function `foundOrZeroBigFloat`; `none` stands for a panic. -/
def foundOrZeroBigFloat (lib : GoLib) (input : String) (found : Bool) : Option lib.BigFloat :=
  if !found then some lib.zeroBigFloat else bytesToBigFloat lib input

/-- Function `floatToStr`; `none` stands for the panic of `big.NewFloat`. -/
def floatToStr (lib : GoLib) (f : lib.Float64) : Option String := lib.floatText f

/-- Function `bigFloatToStr`. -/
def bigFloatToStr (lib : GoLib) (f : lib.BigFloat) : String := lib.bigFloatText f

/-! ## The merge -/

/-- Errors that `Merge` returns. -/
inductive MergeError
  | incompatiblePolicies
  | incompatibleValueTypes
  | unsupportedValueType
  | unsupportedPolicy
  deriving DecidableEq, Repr

/-- What a call `b.Merge(previous)` leaves behind: either it returns, with the two
stores as they are after the call and the returned error, or it panics. -/
inductive MergeResult
  | returned (next previous : Builder) (err : Option MergeError)
  | panicked

/-- The loop `for k, v := range previous.KV` over the entries of `previous.KV`,
with `body` run on `next.KV` for each entry; `none` when a body panics. -/
def rangeKV (body : KV → String → String → Option KV) :
    List (String × String) → KV → Option KV
  | [], next => some next
  | (k, v) :: rest, next =>
    match body next k v with
    | none => none
    | some next' => rangeKV body rest next'

/-- Loop body of the policy REPLACE. -/
def replaceBody (next : KV) (k v : String) : Option KV :=
  match next.get k with
  | some _ => some next
  | none => some (next.set k v)

/-- Loop body of the policy IGNORE. -/
def ignoreBody (next : KV) (k v : String) : Option KV :=
  some (next.set k v)

/-- Loop body of the policy SUM on `int64`. -/
def sumInt64Body (next : KV) (k v : String) : Option KV :=
  let v0b := next.get k
  let v0 := foundOrZeroUint64 (v0b.getD "") v0b.isSome
  let v1 := foundOrZeroUint64 v true
  some (next.set k (formatUint ((v0 + v1) % 2 ^ 64)))

/-- Loop body of the policy SUM on `float64`. -/
def sumFloat64Body (lib : GoLib) (next : KV) (k v : String) : Option KV :=
  let v0b := next.get k
  let v0 := foundOrZeroFloat lib (v0b.getD "") v0b.isSome
  let v1 := foundOrZeroFloat lib v true
  match floatToStr lib (lib.addFloat v0 v1) with
  | none => none
  | some text => some (next.set k text)

/-- Loop body of the policy SUM on `bigInt`. -/
def sumBigIntBody (next : KV) (k v : String) : Option KV :=
  let v0b := next.get k
  match foundOrZeroBigInt (v0b.getD "") v0b.isSome with
  | none => none
  | some v0 =>
    match foundOrZeroBigInt v true with
    | none => none
    | some v1 => some (next.set k (formatInt (v0 + v1)))

/-- Loop body of the policy SUM on `bigFloat`. -/
def sumBigFloatBody (lib : GoLib) (next : KV) (k v : String) : Option KV :=
  let v0b := next.get k
  match foundOrZeroBigFloat lib (v0b.getD "") v0b.isSome with
  | none => none
  | some v0 =>
    match foundOrZeroBigFloat lib v true with
    | none => none
    | some v1 =>
      match lib.addBigFloat v0 v1 with
      | none => none
      | some sum => some (next.set k (bigFloatToStr lib sum))

/-- Loop body of the policy MAX on `int64`. -/
def maxInt64Body (next : KV) (k v : String) : Option KV :=
  let v1 := foundOrZeroUint64 v true
  match next.get k with
  | none => some (next.set k (formatUint v1))
  | some v' =>
    let v0 := foundOrZeroUint64 v' true
    some (next.set k (formatUint (if v0 ≥ v1 then v0 else v1)))

/-- Loop body of the policy MAX on `float64`. -/
def maxFloat64Body (lib : GoLib) (next : KV) (k v : String) : Option KV :=
  let v1 := foundOrZeroFloat lib v true
  match next.get k with
  | none =>
    match floatToStr lib v1 with
    | none => none
    | some text => some (next.set k text)
  | some v' =>
    let v0 := foundOrZeroFloat lib v' true
    match floatToStr lib (if lib.ltFloat v0 v1 then v1 else v0) with
    | none => none
    | some text => some (next.set k text)

/-- Loop body of the policy MAX on `bigInt`. -/
def maxBigIntBody (next : KV) (k v : String) : Option KV :=
  match foundOrZeroBigInt v true with
  | none => none
  | some v1 =>
    match next.get k with
    | none => some (next.set k (formatInt v1))
    | some v' =>
      match foundOrZeroBigInt v' true with
      | none => none
      | some v0 => some (next.set k (formatInt (if v0 ≤ v1 then v1 else v0)))

/-- Loop body of the policy MAX on `bigFloat`. -/
def maxBigFloatBody (lib : GoLib) (next : KV) (k v : String) : Option KV :=
  match foundOrZeroBigFloat lib v true with
  | none => none
  | some v1 =>
    match next.get k with
    | none => some (next.set k (bigFloatToStr lib v1))
    | some v' =>
      match foundOrZeroBigFloat lib v' true with
      | none => none
      | some v0 =>
        some (next.set k (bigFloatToStr lib (if lib.cmpBigFloat v0 v1 ≤ 0 then v1 else v0)))

/-- Loop body of the policy MIN on `int64`. -/
def minInt64Body (next : KV) (k v : String) : Option KV :=
  let v1 := foundOrZeroUint64 v true
  match next.get k with
  | none => some (next.set k (formatUint v1))
  | some v' =>
    let v0 := foundOrZeroUint64 v' true
    some (next.set k (formatUint (if v0 ≤ v1 then v0 else v1)))

/-- Loop body of the policy MIN on `float64`. -/
def minFloat64Body (lib : GoLib) (next : KV) (k v : String) : Option KV :=
  let v1 := foundOrZeroFloat lib v true
  match next.get k with
  | none =>
    match floatToStr lib v1 with
    | none => none
    | some text => some (next.set k text)
  | some v' =>
    let v0 := foundOrZeroFloat lib v' true
    match floatToStr lib (if lib.ltFloat v0 v1 then v0 else v1) with
    | none => none
    | some text => some (next.set k text)

/-- Loop body of the policy MIN on `bigInt`. -/
def minBigIntBody (next : KV) (k v : String) : Option KV :=
  match foundOrZeroBigInt v true with
  | none => none
  | some v1 =>
    match next.get k with
    | none => some (next.set k (formatInt v1))
    | some v' =>
      match foundOrZeroBigInt v' true with
      | none => none
      | some v0 => some (next.set k (formatInt (if v0 ≤ v1 then v0 else v1)))

/-- Loop body of the policy MIN on `bigFloat`. -/
def minBigFloatBody (lib : GoLib) (next : KV) (k v : String) : Option KV :=
  match foundOrZeroBigFloat lib v true with
  | none => none
  | some v1 =>
    match next.get k with
    | none => some (next.set k (bigFloatToStr lib v1))
    | some v' =>
      match foundOrZeroBigFloat lib v' true with
      | none => none
      | some v0 =>
        some (next.set k (bigFloatToStr lib (if lib.cmpBigFloat v0 v1 ≤ 0 then v0 else v1)))

/-- The `switch next.updatePolicy` of `Merge` with its inner `switch next.valueType`:
the loop body that the two select, or the error of a `default` branch. -/
def mergeBody (lib : GoLib) (policy : UpdatePolicy) (valueType : String) :
    Except MergeError (KV → String → String → Option KV) :=
  match policy with
  | UpdatePolicy.REPLACE => Except.ok replaceBody
  | UpdatePolicy.IGNORE => Except.ok ignoreBody
  | UpdatePolicy.SUM =>
    if valueType = OutputValueTypeInt64 then Except.ok sumInt64Body
    else if valueType = OutputValueTypeFloat64 then Except.ok (sumFloat64Body lib)
    else if valueType = OutputValueTypeBigInt then Except.ok sumBigIntBody
    else if valueType = OutputValueTypeBigFloat then Except.ok (sumBigFloatBody lib)
    else Except.error MergeError.unsupportedValueType
  | UpdatePolicy.MAX =>
    if valueType = OutputValueTypeInt64 then Except.ok maxInt64Body
    else if valueType = OutputValueTypeFloat64 then Except.ok (maxFloat64Body lib)
    else if valueType = OutputValueTypeBigInt then Except.ok maxBigIntBody
    else if valueType = OutputValueTypeBigFloat then Except.ok (maxBigFloatBody lib)
    else Except.error MergeError.unsupportedValueType
  | UpdatePolicy.MIN =>
    if valueType = OutputValueTypeInt64 then Except.ok minInt64Body
    else if valueType = OutputValueTypeFloat64 then Except.ok (minFloat64Body lib)
    else if valueType = OutputValueTypeBigInt then Except.ok minBigIntBody
    else if valueType = OutputValueTypeBigFloat then Except.ok (minBigFloatBody lib)
    else Except.error MergeError.unsupportedValueType
  | _ => Except.error MergeError.unsupportedPolicy

/-- The loop `for _, p := range next.DeletedPrefixes` of `Merge`. -/
def applyDeletedPrefixes (prefixes : List String) (previous : Builder) : Builder :=
  prefixes.foldl (fun prev p => prev.DeletePrefix prev.lastOrdinal p) previous

/-- Method `Merge` of `Builder`, called as `b.Merge(previous)`. The deferred
`writeMergeValues` runs on every return. -/
def Builder.Merge (lib : GoLib) (b previous : Builder) : MergeResult :=
  let next := b.clearMergeValues
  if next.updatePolicy ≠ previous.updatePolicy then
    MergeResult.returned (next.writeMergeValues lib) previous
      (some MergeError.incompatiblePolicies)
  else if next.valueType ≠ previous.valueType then
    MergeResult.returned (next.writeMergeValues lib) previous
      (some MergeError.incompatibleValueTypes)
  else
    let previous := applyDeletedPrefixes next.DeletedPrefixes previous
    match mergeBody lib next.updatePolicy next.valueType with
    | Except.error e => MergeResult.returned (next.writeMergeValues lib) previous (some e)
    | Except.ok body =>
      match rangeKV body previous.KV.entries next.KV with
      | none => MergeResult.panicked
      | some kv =>
        let merged : Builder :=
          { next with
            KV := kv
            partialMode := previous.partialMode
            BlockRange :=
              if previous.partialMode then
                { next.BlockRange with StartBlock := previous.BlockRange.StartBlock }
              else next.BlockRange }
        MergeResult.returned (merged.writeMergeValues lib) previous none

/-- The key-values of the receiver after `b.Merge(previous)` returned without an
error; `none` when the call returned an error or panicked. -/
def mergedKV (lib : GoLib) (b previous : Builder) : Option KV :=
  match b.Merge lib previous with
  | MergeResult.returned next _ none => some next.KV
  | _ => none

/-- The receiver after `b.Merge(previous)` returned without an error. -/
def merged (lib : GoLib) (b previous : Builder) : Option Builder :=
  match b.Merge lib previous with
  | MergeResult.returned next _ none => some next
  | _ => none

/-- The bytes under the key `k` in the receiver after `b.Merge(previous)`: `none`
when the call returned an error or panicked, `some none` when it returned
without an error and the key is absent, `some (some v)` when the key holds `v`. -/
def mergedValue (lib : GoLib) (b previous : Builder) (k : String) : Option (Option String) :=
  (mergedKV lib b previous).map (fun m => m.get k)

/-! ## Notions used in the statements and proofs -/

/-- A loop body is local when a run for the pair `(k, v)` leaves every other key
as it is, leaves `k` present, and computes the value of `k` from `v` and from
what was stored under `k` alone. -/
def LocalBody (body : KV → String → String → Option KV) : Prop :=
  (∀ next k v next', body next k v = some next' →
      (next'.get k).isSome ∧ ∀ k', k' ≠ k → next'.get k' = next.get k') ∧
  (∀ next next2 k v, next2.get k = next.get k →
      (body next2 k v).map (fun m => m.get k) = (body next k v).map (fun m => m.get k))

/-- A text that starts with a character other than a sign. -/
def startsUnsigned (l : List Char) : Prop :=
  ∃ c rest, l = c :: rest ∧ c ≠ '+' ∧ c ≠ '-'

/-- The receiver that `Merge` leaves when its loop ends with the key-values `kv`. -/
def mergedBuilder (lib : GoLib) (b previous : Builder) (kv : KV) : Builder :=
  Builder.writeMergeValues lib
    { b.clearMergeValues with
      KV := kv
      partialMode := (applyDeletedPrefixes b.DeletedPrefixes previous).partialMode
      BlockRange :=
        if (applyDeletedPrefixes b.DeletedPrefixes previous).partialMode then
          { b.BlockRange with
            StartBlock := (applyDeletedPrefixes b.DeletedPrefixes previous).BlockRange.StartBlock }
        else b.BlockRange }

/-! ## Stores used in the examples -/

/-- A library for evaluating merges on stores without floating-point values: its
float types hold a single value and the encoded merge values are a fixed text. -/
def exampleLib : GoLib where
  Float64 := Unit
  BigFloat := Unit
  parseFloat := fun _ => some ()
  zeroFloat := ()
  addFloat := fun _ _ => ()
  ltFloat := fun _ _ => false
  floatText := fun _ => some "0"
  parseBigFloat := fun _ => some ()
  zeroBigFloat := ()
  addBigFloat := fun _ _ => some ()
  cmpBigFloat := fun _ _ => 0
  bigFloatText := fun _ => "0"
  jsonMarshal := fun info => info.StoreName

/-- A store named `s` over `[0, 10)` with the given policy, value type, deleted
prefixes and key-values. -/
def exampleStore (policy : UpdatePolicy) (valueType : String) (deleted : List String)
    (kv : List (String × String)) : Builder :=
  { Name := "s"
    ModuleStartBlock := 0
    ModuleHash := "h"
    KV := KV.ofList kv
    DeletedPrefixes := deleted
    updatePolicy := policy
    valueType := valueType
    lastOrdinal := 0
    partialMode := true
    BlockRange := { StartBlock := 0, ExclusiveEndBlock := 10 } }

/-- The error with which `b.Merge(previous)` returns: `none` when the call
panics, `some none` when it returns without an error. -/
def mergeError (lib : GoLib) (b previous : Builder) : Option (Option MergeError) :=
  match b.Merge lib previous with
  | MergeResult.returned _ _ err => some err
  | MergeResult.panicked => none

/-- The receiver as `b.Merge(previous)` leaves it when it returns, with or
without an error; `none` when the call panics. -/
def receiverAfterMerge (lib : GoLib) (b previous : Builder) : Option Builder :=
  match b.Merge lib previous with
  | MergeResult.returned next _ _ => some next
  | MergeResult.panicked => none

/-- The struct `mergeInfo` that `writeMergeValues` fills for the store `b`. -/
def Builder.mergeInfo (b : Builder) : mergeInfo :=
  { StoreName := b.Name
    UpdatePolicy := b.updatePolicy
    ValueType := b.valueType
    ModuleHash := b.ModuleHash
    ModuleStartBlock := b.ModuleStartBlock }

/-- A store that differs from `exampleStore` only in its mode and block range. -/
def exampleStoreOver (policy : UpdatePolicy) (valueType : String) (partialMode : Bool)
    (startBlock endBlock : Nat) (kv : List (String × String)) : Builder :=
  { exampleStore policy valueType [] kv with
    partialMode := partialMode
    BlockRange := { StartBlock := startBlock, ExclusiveEndBlock := endBlock } }

end State

/-!
# Stores of the `store` package (`store/base_store.go`, `store/full_kv.go`)

Modelling conventions of this part:

* A key and a value of `map[string][]byte` are lists of bytes, so that keys
  that are not valid UTF-8 can be told apart from those that are.
* A Go panic of `bumpOrdinal` is the result `Outcome.panicked`, which carries the
  store as it is when the panic is raised.
* The logger and the calls that write to it are left out: they do not touch the
  fields of the store.
* The bytes of a snapshot file are modelled by what `encoding/json` reads from
  them (`FileContent`); `json.MarshalIndent` and `json.Unmarshal` are library
  code, modelled by their documented behaviour on a `map[string][]byte`.
-/

namespace Store

/-- A Go `byte`. -/
abbrev Byte := Fin 256

/-- A Go `[]byte`, and a Go `string` seen as its bytes. -/
abbrev Bytes := List Byte

/-- First value stored under `k` in a list of pairs. -/
def lookupBytes (k : Bytes) : List (Bytes × Bytes) → Option Bytes
  | [] => none
  | (k', v) :: rest => if k' = k then some v else lookupBytes k rest

/-- A Go `map[string][]byte`: pairs in iteration order, no key twice. -/
structure KV where
  entries : List (Bytes × Bytes)
  nodup : (entries.map Prod.fst).Nodup

namespace KV

/-- The empty map `map[string][]byte{}`. -/
def empty : KV := ⟨[], List.nodup_nil⟩

/-- Lookup `v, found := m[k]`: `none` stands for `found == false`. -/
def get (m : KV) (k : Bytes) : Option Bytes := lookupBytes k m.entries

/-- Assignment `m[k] = v`. -/
def set (m : KV) (k v : Bytes) : KV :=
  ⟨(k, v) :: m.entries.filter (fun e => decide (e.1 ≠ k)),
    List.nodup_cons.mpr
      ⟨by simp [List.mem_map, List.mem_filter],
        m.nodup.sublist (List.Sublist.map Prod.fst (List.filter_sublist m.entries))⟩⟩

/-- Map built by assigning the given pairs one after the other. -/
def ofList (l : List (Bytes × Bytes)) : KV :=
  l.foldl (fun m e => m.set e.1 e.2) empty

end KV

/-! ## Member names in JSON (`encoding/json`, `unicode/utf8`) -/

/-- Whether the byte lies in `[lo, hi]`. -/
def inRange (lo hi : Nat) (b : Byte) : Bool := decide (lo ≤ b.val) && decide (b.val ≤ hi)

/-- Whether the byte is a continuation byte of UTF-8, in `[0x80, 0xBF]`. -/
def isContinuation (b : Byte) : Bool := inRange 0x80 0xBF b

/-- Size that `utf8.DecodeRune` reports for a well-formed encoding at the head of
the bytes; `0` when the bytes are empty or start with an encoding that is not
well formed (for which `DecodeRune` returns `RuneError` with size 1). -/
def runeWidth : Bytes → Nat
  | [] => 0
  | b0 :: rest =>
    if b0.val < 0x80 then 1
    else if inRange 0xC2 0xDF b0 then
      match rest with
      | b1 :: _ => if isContinuation b1 then 2 else 0
      | _ => 0
    else if inRange 0xE0 0xEF b0 then
      match rest with
      | b1 :: b2 :: _ =>
        if inRange (if b0.val = 0xE0 then 0xA0 else 0x80) (if b0.val = 0xED then 0x9F else 0xBF) b1
            && isContinuation b2 then 3
        else 0
      | _ => 0
    else if inRange 0xF0 0xF4 b0 then
      match rest with
      | b1 :: b2 :: b3 :: _ =>
        if inRange (if b0.val = 0xF0 then 0x90 else 0x80) (if b0.val = 0xF4 then 0x8F else 0xBF) b1
            && isContinuation b2 && isContinuation b3 then 4
        else 0
      | _ => 0
    else 0

/-- The bytes of U+FFFD, the Unicode replacement character. -/
def replacementChar : Bytes := [0xEF, 0xBF, 0xBD]

/-- Coercion of a Go string to valid UTF-8 as `encoding/json` does it when it
writes a string: every byte that does not start a well-formed encoding is
replaced by U+FFFD. The first argument counts the bytes still to copy of the
encoding being copied. -/
def coerceFrom : Nat → Bytes → Bytes
  | _, [] => []
  | skip + 1, b :: rest => b :: coerceFrom skip rest
  | 0, b :: rest =>
    if runeWidth (b :: rest) = 0 then replacementChar ++ coerceFrom 0 rest
    else b :: coerceFrom (runeWidth (b :: rest) - 1) rest

/-- The member name that `encoding/json` writes and reads back for a key. -/
def coerceUTF8 (s : Bytes) : Bytes := coerceFrom 0 s

/-- Whether the bytes are well-formed UTF-8 from a position where `skip` bytes
of the current encoding remain. -/
def validFrom : Nat → Bytes → Bool
  | _, [] => true
  | skip + 1, _ :: rest => validFrom skip rest
  | 0, b :: rest => decide (runeWidth (b :: rest) ≠ 0) && validFrom (runeWidth (b :: rest) - 1) rest

/-- Go `utf8.ValidString`. -/
def validUTF8 (s : Bytes) : Bool := validFrom 0 s

/-- Order of Go strings, byte by byte. -/
def bytesLe : Bytes → Bytes → Bool
  | [], _ => true
  | _ :: _, [] => false
  | a :: as, b :: bs =>
    if a.val < b.val then true else if b.val < a.val then false else bytesLe as bs

/-- What `json.Unmarshal` into a `map[string][]byte` makes of the bytes of a file:
an object with its members in textual order, each name as the bytes of the
decoded string and each value as the bytes that the base64 text (or `null`)
stands for, or bytes that do not decode into such a map. -/
inductive FileContent
  | jsonObject (members : List (Bytes × Bytes))
  | undecodable (raw : Bytes)
  deriving DecidableEq

/-- The call `json.MarshalIndent(kv, "", "  ")` on a `map[string][]byte`, which
cannot fail: the members are written in the order of the keys, each key as a
string coerced to valid UTF-8 and each value in base64. -/
def jsonMarshalIndent (kv : KV) : FileContent :=
  FileContent.jsonObject
    ((kv.entries.insertionSort (fun a b => bytesLe a.1 b.1 = true)).map
      (fun e => (coerceUTF8 e.1, e.2)))

/-- The call `json.Unmarshal(data, &kv)` on a fresh map; `none` stands for
`err != nil`. A member that repeats a name overwrites the earlier one. -/
def jsonUnmarshal (data : FileContent) : Option KV :=
  match data with
  | FileContent.jsonObject members => some (KV.ofList members)
  | FileContent.undecodable _ => none

/-! ## Stores -/

/-- Modelled from the spec: the operation of a store delta. -/
inductive Operation
  | CREATE
  | UPDATE
  | DELETE
  deriving DecidableEq, Repr

/-- Modelled from the spec: the message `pbsubstreams.StoreDelta`, whose
declaration is not part of the sources at hand. -/
structure StoreDelta where
  ordinal : Nat
  operation : Operation
  key : Bytes
  oldValue : Bytes
  newValue : Bytes
  deriving DecidableEq

/-- Modelled from the spec: the object store behind `loadStore` and `saveStore`,
with get and put by file name and replacement of a whole file at a time;
`available = false` stands for a store whose calls fail. -/
structure ObjectStore where
  available : Bool
  files : List (String × FileContent)

/-- Modelled from the spec: the function `loadStore`, whose body is not part of
the sources at hand; `none` stands for `err != nil`, as for a missing file. -/
def loadStore (store : ObjectStore) (fileName : String) : Option FileContent :=
  if store.available then
    (store.files.find? (fun f => decide (f.1 = fileName))).map Prod.snd
  else none

/-- Modelled from the spec: the function `saveStore`, whose body is not part of
the sources at hand; `none` stands for `err != nil`. -/
def saveStore (store : ObjectStore) (fileName : String) (content : FileContent) :
    Option ObjectStore :=
  if store.available then
    some { store with
      files := (fileName, content) :: store.files.filter (fun f => decide (f.1 ≠ fileName)) }
  else none

/-- Modelled from the spec: the struct `Config`, whose declaration is not part of
the sources at hand; these are the fields that the two files read. -/
structure Config where
  name : String
  moduleHash : String
  moduleInitialBlock : Nat
  store : ObjectStore

/-- The struct `baseStore`, without its logger. -/
structure baseStore extends Config where
  kv : KV
  deltas : List StoreDelta
  lastOrdinal : Nat

/-- The struct `FullKV`, which embeds a `*baseStore`. -/
structure FullKV extends baseStore

/-- Result of a call that may panic, with the store as the call leaves it. -/
inductive Outcome (σ : Type)
  | done (s : σ)
  | panicked (s : σ)

/-- Method `Name` of `baseStore`. -/
def baseStore.Name (b : baseStore) : String := b.name

/-- Method `InitialBlock` of `baseStore`. -/
def baseStore.InitialBlock (b : baseStore) : Nat := b.moduleInitialBlock

/-- Method `Reset` of `baseStore`. -/
def baseStore.Reset (b : baseStore) : baseStore :=
  { b with deltas := [], lastOrdinal := 0 }

/-- Method `bumpOrdinal` of `baseStore`. -/
def baseStore.bumpOrdinal (b : baseStore) (ord : Nat) : Outcome baseStore :=
  if b.lastOrdinal > ord then Outcome.panicked b
  else Outcome.done { b with lastOrdinal := ord }

/-- Method `Clone` of `FullKV`. -/
def FullKV.Clone (s : FullKV) : FullKV :=
  { toConfig := s.toConfig, kv := KV.empty, deltas := [], lastOrdinal := 0 }

/-- Method `Reset` of `FullKV`. -/
def FullKV.Reset (s : FullKV) : FullKV :=
  { s with deltas := [], lastOrdinal := 0 }

/-- Method `storageFilename` of `FullKV`. The function `fullStateFileName`, whose
body is not part of the sources at hand, is a parameter; `block.NewRange` builds
the range from its two ends. -/
def FullKV.storageFilename (fullStateFileName : State.BlockRange → String) (s : FullKV)
    (exclusiveEndBlock : Nat) : String :=
  fullStateFileName
    { StartBlock := s.moduleInitialBlock, ExclusiveEndBlock := exclusiveEndBlock }

/-- Errors that `Load` and `Save` return. -/
inductive StoreError
  | loadFullStore
  | unmarshalData
  | writeFullStore
  deriving DecidableEq, Repr

/-- Method `Load` of `FullKV`: the store as the call leaves it and the error it
returns. -/
def FullKV.Load (fullStateFileName : State.BlockRange → String) (s : FullKV)
    (exclusiveEndBlock : Nat) : FullKV × Option StoreError :=
  let fileName := s.storageFilename fullStateFileName exclusiveEndBlock
  match loadStore s.store fileName with
  | none => (s, some StoreError.loadFullStore)
  | some data =>
    match jsonUnmarshal data with
    | none => (s, some StoreError.unmarshalData)
    | some kv => ({ s with kv := kv }, none)

/-- Method `Save` of `FullKV`: the store as the call leaves it, with the object
store behind it, and the range or the error it returns. -/
def FullKV.Save (fullStateFileName : State.BlockRange → String) (s : FullKV)
    (endBoundaryBlock : Nat) : FullKV × Except StoreError State.BlockRange :=
  let content := jsonMarshalIndent s.kv
  let filename := s.storageFilename fullStateFileName endBoundaryBlock
  match saveStore s.store filename content with
  | none => (s, Except.error StoreError.writeFullStore)
  | some store' =>
    ({ s with store := store' },
      Except.ok { StartBlock := s.moduleInitialBlock, ExclusiveEndBlock := endBoundaryBlock })

/-- A call on a store, for sequences of calls. -/
inductive Call
  | bumpOrdinal (ord : Nat)
  | Reset

/-- State of a run of calls: the store, the ordinals accepted since the last
`Reset`, oldest first, and those accepted before each earlier `Reset`. -/
structure Run where
  store : baseStore
  accepted : List Nat
  earlier : List (List Nat)

/-- One call of a run. A `bumpOrdinal` that panics leaves the store as it is and
its ordinal is not accepted. -/
def Run.step (r : Run) (c : Call) : Run :=
  match c with
  | Call.Reset => { store := r.store.Reset, accepted := [], earlier := r.accepted :: r.earlier }
  | Call.bumpOrdinal ord =>
    match r.store.bumpOrdinal ord with
    | Outcome.done s => { r with store := s, accepted := r.accepted ++ [ord] }
    | Outcome.panicked s => { r with store := s }

/-- A sequence of calls on a store on which no ordinal was accepted yet. -/
def runCalls (b : baseStore) (calls : List Call) : Run :=
  calls.foldl Run.step { store := b, accepted := [], earlier := [] }

/-- The greatest of the ordinals, `0` when there is none. -/
def greatest (ords : List Nat) : Nat := ords.foldr max 0

/-- What every call of a run preserves: the ordinals accepted before each `Reset`
and since the last one never decrease, and `lastOrdinal` is the greatest of the
latter. -/
def Run.Monotone (r : Run) : Prop :=
  (∀ seg ∈ r.accepted :: r.earlier, seg.Pairwise (· ≤ ·)) ∧
    r.store.lastOrdinal = greatest r.accepted

/-- A store named `s` with the given key-values and an empty object store. -/
def exampleFullKV (kv : List (Bytes × Bytes)) : FullKV :=
  { name := "s"
    moduleHash := "h"
    moduleInitialBlock := 0
    store := { available := true, files := [] }
    kv := KV.ofList kv
    deltas := []
    lastOrdinal := 0 }

/-- A file name made of the two ends of the range. -/
def exampleFileName (r : State.BlockRange) : String :=
  State.formatUint r.StartBlock ++ "-" ++ State.formatUint r.ExclusiveEndBlock ++ ".kv"

end Store

/-!
# Termination of a stream (`pipeline/terminate.go`)

Modelling conventions of this part:

* A Go `error` is `none` for `nil` and otherwise an `Error`: one of the two
  sentinel values that `OnStreamTerminated` tests for, an error made by
  `fmt.Errorf` without a wrapped error, or one that wraps another with `%w`.
* The methods that `OnStreamTerminated` calls and whose bodies are not part of
  the sources at hand are known by the error they return (`Calls`); every call
  made is recorded, in order, in a list of `Event`s.
* Logging is left out.
-/

namespace Terminate

/-- Go error values as far as `errors.Is` tells them apart. -/
inductive Error
  | ErrStopBlockReached
  | EOF
  | errorf (msg : String)
  | wrapf (msg : String) (inner : Error)
  deriving DecidableEq, Repr

/-- Whether the error or one that it wraps is the target (`errors.Is` on a
non-nil error). -/
def Error.is : Error → Error → Bool
  | Error.wrapf msg inner, target =>
    decide (Error.wrapf msg inner = target) || inner.is target
  | e, target => decide (e = target)

/-- Go `errors.Is(err, target)` for a target that is not nil. -/
def errorsIs (err : Option Error) (target : Error) : Bool :=
  match err with
  | none => false
  | some e => e.is target

/-- Modelled from the spec: a clock, the number and the id of a block. -/
structure Clock where
  number : Nat
  id : String
  deriving DecidableEq, Repr

/-- Modelled from the spec: the details of the request kept in the context
(`reqctx.Details`), of which `OnStreamTerminated` reads the stop block number. -/
structure RequestDetails where
  StopBlockNum : Nat

/-- Modelled from the spec: the struct `Pipeline`, whose declaration is not part
of the sources at hand; these are the fields that `OnStreamTerminated` passes
on. The pointer `lastFinalClock` may be nil. -/
structure Pipeline where
  lastFinalClock : Option Clock
  executionStages : List (List String)

/-- The error that each method called by `OnStreamTerminated` returns; the bodies
of these methods are not part of the sources at hand. -/
structure Calls where
  /-- Result of `p.cleanUpModuleExecutors(ctx)`. -/
  cleanUpModuleExecutors : Option Error
  /-- Result of `p.execOutputCache.EndOfStream(clock)`. -/
  EndOfStream : Option Clock → Option Error
  /-- Result of `p.stores.flushStores(ctx, stages, stopBlockNum)`. -/
  flushStores : List (List String) → Nat → Option Error

/-- A call made by `OnStreamTerminated`, with its arguments. -/
inductive Event
  | cleanUpModuleExecutors
  | runPostJobHooks (clock : Option Clock)
  | EndOfStream (clock : Option Clock)
  | flushStores (stages : List (List String)) (stopBlockNum : Nat)
  deriving DecidableEq, Repr

/-- Method `OnStreamTerminated` of `Pipeline`: the calls it makes, in order, and
the error it returns. -/
def Pipeline.OnStreamTerminated (calls : Calls) (p : Pipeline) (reqDetails : RequestDetails)
    (err : Option Error) : List Event × Option Error :=
  match calls.cleanUpModuleExecutors with
  | some e => ([Event.cleanUpModuleExecutors], some e)
  | none =>
    let made := [Event.cleanUpModuleExecutors, Event.runPostJobHooks p.lastFinalClock]
    if (!errorsIs err Error.ErrStopBlockReached && !errorsIs err Error.EOF) = true then
      match err with
      | none =>
        (made, some (Error.errorf "stream terminated without reaching the stop block"))
      | some e => (made, some e)
    else
      match calls.EndOfStream p.lastFinalClock with
      | some e =>
        (made ++ [Event.EndOfStream p.lastFinalClock], some (Error.wrapf "end of stream" e))
      | none =>
        match calls.flushStores p.executionStages reqDetails.StopBlockNum with
        | some e =>
          (made ++ [Event.EndOfStream p.lastFinalClock,
              Event.flushStores p.executionStages reqDetails.StopBlockNum],
            some (Error.wrapf "step new irr: stores end of stream" e))
        | none =>
          (made ++ [Event.EndOfStream p.lastFinalClock,
              Event.flushStores p.executionStages reqDetails.StopBlockNum],
            none)

/-- Whether the incoming error says that the stream ended at the stop block or
at the end of the source. -/
def graceful (err : Option Error) : Bool :=
  errorsIs err Error.ErrStopBlockReached || errorsIs err Error.EOF

/-- Calls that all succeed. -/
def exampleCalls : Calls :=
  { cleanUpModuleExecutors := none
    EndOfStream := fun _ => none
    flushStores := fun _ _ => none }

/-- A pipeline with two stages whose last final block is block 9. -/
def examplePipeline : Pipeline :=
  { lastFinalClock := some { number := 9, id := "9a" }
    executionStages := [["map_m"], ["store_s"]] }

end Terminate

namespace State

/-! ## Facts about byte maps -/

theorem lookupKey_filter (p : String → Bool) (k : String) (l : List (String × String)) :
    lookupKey k (l.filter (fun e => p e.1)) = if p k then lookupKey k l else none := by
  induction l with
  | nil => simp [lookupKey]
  | cons e rest ih =>
    obtain ⟨k', v⟩ := e
    by_cases hp : p k' = true
    · by_cases hk : k' = k
      · subst hk; simp [List.filter_cons, hp, lookupKey]
      · simp [List.filter_cons, hp, lookupKey, hk, ih]
    · by_cases hk : k' = k
      · subst hk; simp [List.filter_cons, hp, lookupKey, ih]
      · simp [List.filter_cons, hp, lookupKey, hk, ih]

theorem lookupKey_eq_none (k : String) (l : List (String × String))
    (h : k ∉ l.map Prod.fst) : lookupKey k l = none := by
  induction l with
  | nil => rfl
  | cons e rest ih =>
    obtain ⟨k', v⟩ := e
    simp only [List.map_cons, List.mem_cons, not_or] at h
    have hne : ¬ k' = k := fun hk => h.1 hk.symm
    simp [lookupKey, hne, ih h.2]

theorem KV.get_filterKeys (m : KV) (p : String → Bool) (k : String) :
    (m.filterKeys p).get k = if p k then m.get k else none :=
  lookupKey_filter p k m.entries

theorem KV.get_delete (m : KV) (k k' : String) :
    (m.delete k).get k' = if k' = k then none else m.get k' := by
  have h := lookupKey_filter (fun x => decide (x ≠ k)) k' m.entries
  simp only [KV.get, KV.delete]
  rw [h]
  by_cases hk : k' = k <;> simp [hk]

theorem KV.get_set (m : KV) (k v k' : String) :
    (m.set k v).get k' = if k' = k then some v else m.get k' := by
  by_cases hk : k' = k
  · subst hk; simp [KV.get, KV.set, lookupKey]
  · have hk2 : ¬ k = k' := fun h => hk h.symm
    have h := KV.get_delete m k k'
    simp only [KV.get] at h
    simp [KV.get, KV.set, lookupKey, hk, hk2, h]

theorem KV.get_empty (k : String) : KV.empty.get k = none := rfl

/-! ## Facts about the loop over `previous.KV` -/

theorem rangeKV_get_of_absent (body : KV → String → String → Option KV) (hloc : LocalBody body)
    (entries : List (String × String)) (next r : KV)
    (hr : rangeKV body entries next = some r) (k : String)
    (hk : lookupKey k entries = none) : r.get k = next.get k := by
  induction entries generalizing next with
  | nil => simp [rangeKV] at hr; rw [hr]
  | cons e rest ih =>
    obtain ⟨k0, v0⟩ := e
    simp only [rangeKV] at hr
    cases hb : body next k0 v0 with
    | none => simp [hb] at hr
    | some n1 =>
      simp only [hb] at hr
      by_cases hk0 : k0 = k
      · simp [lookupKey, hk0] at hk
      · simp only [lookupKey, hk0, if_false] at hk
        rw [ih n1 hr hk]
        exact (hloc.1 next k0 v0 n1 hb).2 k (fun h => hk0 h.symm)

theorem rangeKV_get_of_present (body : KV → String → String → Option KV) (hloc : LocalBody body)
    (entries : List (String × String)) (hnodup : (entries.map Prod.fst).Nodup) (next r : KV)
    (hr : rangeKV body entries next = some r) (k v : String)
    (hk : lookupKey k entries = some v) :
    ∃ n1, body next k v = some n1 ∧ r.get k = n1.get k := by
  induction entries generalizing next with
  | nil => simp [lookupKey] at hk
  | cons e rest ih =>
    obtain ⟨k0, v0⟩ := e
    simp only [rangeKV] at hr
    simp only [List.map_cons, List.nodup_cons] at hnodup
    cases hb : body next k0 v0 with
    | none => simp [hb] at hr
    | some n1 =>
      simp only [hb] at hr
      by_cases hk0 : k0 = k
      · subst hk0
        simp only [lookupKey, if_true, Option.some.injEq] at hk
        subst hk
        refine ⟨n1, hb, ?_⟩
        exact rangeKV_get_of_absent body hloc rest n1 r hr k0
          (lookupKey_eq_none k0 rest hnodup.1)
      · simp only [lookupKey, hk0, if_false] at hk
        obtain ⟨n2, hn2, hget⟩ := ih hnodup.2 n1 hr hk
        have hsame : n1.get k = next.get k :=
          (hloc.1 next k0 v0 n1 hb).2 k (fun h => hk0 h.symm)
        have hu := hloc.2 next n1 k v hsame
        rw [hn2] at hu
        cases hb2 : body next k v with
        | none => simp [hb2] at hu
        | some n3 =>
          simp only [hb2, Option.map_some', Option.some.injEq] at hu
          exact ⟨n3, rfl, by rw [hget, hu]⟩

theorem rangeKV_isSome (body : KV → String → String → Option KV) (hloc : LocalBody body)
    (entries : List (String × String)) (hnodup : (entries.map Prod.fst).Nodup) (next : KV)
    (hall : ∀ k v, lookupKey k entries = some v → (body next k v).isSome) :
    ∃ r, rangeKV body entries next = some r := by
  induction entries generalizing next with
  | nil => exact ⟨next, rfl⟩
  | cons e rest ih =>
    obtain ⟨k0, v0⟩ := e
    simp only [List.map_cons, List.nodup_cons] at hnodup
    have h0 := hall k0 v0 (by simp [lookupKey])
    cases hb : body next k0 v0 with
    | none => simp [hb] at h0
    | some n1 =>
      have hrest : ∀ k v, lookupKey k rest = some v → (body n1 k v).isSome := by
        intro k v hkv
        have hne : ¬ k0 = k := by
          intro h
          subst h
          rw [lookupKey_eq_none k0 rest hnodup.1] at hkv
          exact Option.noConfusion hkv
        have hsame : n1.get k = next.get k :=
          (hloc.1 next k0 v0 n1 hb).2 k (fun h => hne h.symm)
        have hu := hloc.2 next n1 k v hsame
        have hn := hall k v (by simp [lookupKey, hne, hkv])
        cases hb1 : body n1 k v with
        | none =>
          rw [hb1] at hu
          cases hb2 : body next k v with
          | none => simp [hb2] at hn
          | some n3 => simp [hb2] at hu
        | some n2 => rfl
      obtain ⟨r, hr⟩ := ih hnodup.2 n1 hrest
      exact ⟨r, by simp [rangeKV, hb, hr]⟩

theorem KV.set_frame (m : KV) (k w : String) :
    ((m.set k w).get k).isSome ∧ ∀ k', k' ≠ k → (m.set k w).get k' = m.get k' :=
  ⟨by simp [KV.get_set], fun k' hk' => by simp [KV.get_set, hk']⟩

theorem replaceBody_local : LocalBody replaceBody := by
  refine ⟨?_, ?_⟩
  · intro next k v next' h
    unfold replaceBody at h
    cases hg : next.get k with
    | none =>
      simp only [hg, Option.some.injEq] at h
      subst h
      exact ⟨by simp [KV.get_set], fun k' hk' => by simp [KV.get_set, hk']⟩
    | some w =>
      simp only [hg, Option.some.injEq] at h
      subst h
      exact ⟨by simp [hg], fun _ _ => rfl⟩
  · intro next next2 k v h
    unfold replaceBody
    rw [h]
    cases hg : next.get k with
    | none => simp [KV.get_set]
    | some w => simp [hg, h]

theorem ignoreBody_local : LocalBody ignoreBody := by
  refine ⟨?_, ?_⟩
  · intro next k v next' h
    simp only [ignoreBody, Option.some.injEq] at h
    subst h
    exact ⟨by simp [KV.get_set], fun k' hk' => by simp [KV.get_set, hk']⟩
  · intro next next2 k v h
    simp [ignoreBody, KV.get_set]

theorem sumInt64Body_local : LocalBody sumInt64Body := by
  refine ⟨?_, ?_⟩
  · intro next k v next' h
    simp only [sumInt64Body, Option.some.injEq] at h
    subst h
    exact ⟨by simp [KV.get_set], fun k' hk' => by simp [KV.get_set, hk']⟩
  · intro next next2 k v h
    simp [sumInt64Body, KV.get_set, h]

theorem sumFloat64Body_local (lib : GoLib) : LocalBody (sumFloat64Body lib) := by
  refine ⟨?_, ?_⟩
  · intro next k v next' h
    simp only [sumFloat64Body] at h
    split at h
    · cases h
    · simp only [Option.some.injEq] at h
      subst h
      exact ⟨by simp [KV.get_set], fun k' hk' => by simp [KV.get_set, hk']⟩
  · intro next next2 k v h
    simp only [sumFloat64Body, h]
    split <;> simp [KV.get_set]

theorem sumBigIntBody_local : LocalBody sumBigIntBody := by
  refine ⟨?_, ?_⟩
  · intro next k v next' h
    simp only [sumBigIntBody] at h
    repeat' split at h
    all_goals cases h
    all_goals exact KV.set_frame _ _ _
  · intro next next2 k v h
    simp only [sumBigIntBody, h]
    repeat' split
    all_goals simp [KV.get_set]

theorem sumBigFloatBody_local (lib : GoLib) : LocalBody (sumBigFloatBody lib) := by
  refine ⟨?_, ?_⟩
  · intro next k v next' h
    simp only [sumBigFloatBody] at h
    repeat' split at h
    all_goals cases h
    all_goals exact KV.set_frame _ _ _
  · intro next next2 k v h
    simp only [sumBigFloatBody, h]
    repeat' split
    all_goals simp [KV.get_set]

theorem maxInt64Body_local : LocalBody maxInt64Body := by
  refine ⟨?_, ?_⟩
  · intro next k v next' h
    simp only [maxInt64Body] at h
    repeat' split at h
    all_goals cases h
    all_goals exact KV.set_frame _ _ _
  · intro next next2 k v h
    simp only [maxInt64Body, h]
    repeat' split
    all_goals simp [KV.get_set]

theorem minInt64Body_local : LocalBody minInt64Body := by
  refine ⟨?_, ?_⟩
  · intro next k v next' h
    simp only [minInt64Body] at h
    repeat' split at h
    all_goals cases h
    all_goals exact KV.set_frame _ _ _
  · intro next next2 k v h
    simp only [minInt64Body, h]
    repeat' split
    all_goals simp [KV.get_set]

theorem maxFloat64Body_local (lib : GoLib) : LocalBody (maxFloat64Body lib) := by
  refine ⟨?_, ?_⟩
  · intro next k v next' h
    simp only [maxFloat64Body] at h
    repeat' split at h
    all_goals cases h
    all_goals exact KV.set_frame _ _ _
  · intro next next2 k v h
    simp only [maxFloat64Body, h]
    repeat' split
    all_goals simp [KV.get_set]

theorem minFloat64Body_local (lib : GoLib) : LocalBody (minFloat64Body lib) := by
  refine ⟨?_, ?_⟩
  · intro next k v next' h
    simp only [minFloat64Body] at h
    repeat' split at h
    all_goals cases h
    all_goals exact KV.set_frame _ _ _
  · intro next next2 k v h
    simp only [minFloat64Body, h]
    repeat' split
    all_goals simp [KV.get_set]

theorem maxBigIntBody_local : LocalBody maxBigIntBody := by
  refine ⟨?_, ?_⟩
  · intro next k v next' h
    simp only [maxBigIntBody] at h
    repeat' split at h
    all_goals cases h
    all_goals exact KV.set_frame _ _ _
  · intro next next2 k v h
    simp only [maxBigIntBody, h]
    repeat' split
    all_goals simp [KV.get_set]

theorem minBigIntBody_local : LocalBody minBigIntBody := by
  refine ⟨?_, ?_⟩
  · intro next k v next' h
    simp only [minBigIntBody] at h
    repeat' split at h
    all_goals cases h
    all_goals exact KV.set_frame _ _ _
  · intro next next2 k v h
    simp only [minBigIntBody, h]
    repeat' split
    all_goals simp [KV.get_set]

theorem maxBigFloatBody_local (lib : GoLib) : LocalBody (maxBigFloatBody lib) := by
  refine ⟨?_, ?_⟩
  · intro next k v next' h
    simp only [maxBigFloatBody] at h
    repeat' split at h
    all_goals cases h
    all_goals exact KV.set_frame _ _ _
  · intro next next2 k v h
    simp only [maxBigFloatBody, h]
    repeat' split
    all_goals simp [KV.get_set]

theorem minBigFloatBody_local (lib : GoLib) : LocalBody (minBigFloatBody lib) := by
  refine ⟨?_, ?_⟩
  · intro next k v next' h
    simp only [minBigFloatBody] at h
    repeat' split at h
    all_goals cases h
    all_goals exact KV.set_frame _ _ _
  · intro next next2 k v h
    simp only [minBigFloatBody, h]
    repeat' split
    all_goals simp [KV.get_set]

/-- Every loop body that the two switches of `Merge` can select is local. -/
theorem mergeBody_local (lib : GoLib) (policy : UpdatePolicy) (valueType : String)
    (body : KV → String → String → Option KV)
    (h : mergeBody lib policy valueType = Except.ok body) : LocalBody body := by
  unfold mergeBody at h
  cases policy
  all_goals simp only [] at h
  all_goals repeat' split at h
  all_goals cases h
  all_goals first
    | exact replaceBody_local | exact ignoreBody_local
    | exact sumInt64Body_local | exact sumFloat64Body_local lib
    | exact sumBigIntBody_local | exact sumBigFloatBody_local lib
    | exact maxInt64Body_local | exact maxFloat64Body_local lib
    | exact maxBigIntBody_local | exact maxBigFloatBody_local lib
    | exact minInt64Body_local | exact minFloat64Body_local lib
    | exact minBigIntBody_local | exact minBigFloatBody_local lib

/-! ## Facts about `Merge` -/

theorem coveredBy_nil (k : String) : coveredBy [] k = false := rfl

theorem coveredBy_cons (p : String) (ps : List String) (k : String) :
    coveredBy (p :: ps) k = (hasPrefix k p || coveredBy ps k) := by
  simp [coveredBy]

theorem applyDeletedPrefixes_get (ps : List String) (previous : Builder) (k : String) :
    (applyDeletedPrefixes ps previous).KV.get k =
      if coveredBy ps k then none else previous.KV.get k := by
  induction ps generalizing previous with
  | nil => simp [applyDeletedPrefixes, coveredBy]
  | cons p rest ih =>
    have hstep : applyDeletedPrefixes (p :: rest) previous =
        applyDeletedPrefixes rest (previous.DeletePrefix previous.lastOrdinal p) := rfl
    rw [hstep, ih, coveredBy_cons]
    simp only [Builder.DeletePrefix, KV.get_filterKeys]
    cases hp : hasPrefix k p <;> cases hc : coveredBy rest k <;> simp

theorem applyDeletedPrefixes_partialMode (ps : List String) (previous : Builder) :
    (applyDeletedPrefixes ps previous).partialMode = previous.partialMode := by
  induction ps generalizing previous with
  | nil => rfl
  | cons p rest ih =>
    have hstep : applyDeletedPrefixes (p :: rest) previous =
        applyDeletedPrefixes rest (previous.DeletePrefix previous.lastOrdinal p) := rfl
    rw [hstep, ih]
    rfl

theorem applyDeletedPrefixes_BlockRange (ps : List String) (previous : Builder) :
    (applyDeletedPrefixes ps previous).BlockRange = previous.BlockRange := by
  induction ps generalizing previous with
  | nil => rfl
  | cons p rest ih =>
    have hstep : applyDeletedPrefixes (p :: rest) previous =
        applyDeletedPrefixes rest (previous.DeletePrefix previous.lastOrdinal p) := rfl
    rw [hstep, ih]
    rfl

theorem writeMergeValues_get (lib : GoLib) (b : Builder) (k : String)
    (hk : k ≠ mergeValuesKey) : (b.writeMergeValues lib).KV.get k = b.KV.get k := by
  simp [Builder.writeMergeValues, KV.get_set, hk]

theorem clearMergeValues_get (b : Builder) (k : String) (hk : k ≠ mergeValuesKey) :
    b.clearMergeValues.KV.get k = b.KV.get k := by
  simp [Builder.clearMergeValues, KV.get_delete, hk]

theorem Merge_of_range (lib : GoLib) (b previous : Builder)
    (body : KV → String → String → Option KV)
    (hpol : b.updatePolicy = previous.updatePolicy) (hvt : b.valueType = previous.valueType)
    (hbody : mergeBody lib b.updatePolicy b.valueType = Except.ok body) :
    b.Merge lib previous =
      match rangeKV body (applyDeletedPrefixes b.DeletedPrefixes previous).KV.entries
          (b.KV.delete mergeValuesKey) with
      | none => MergeResult.panicked
      | some kv =>
        MergeResult.returned (mergedBuilder lib b previous kv)
          (applyDeletedPrefixes b.DeletedPrefixes previous) none := by
  have hpol' : b.clearMergeValues.updatePolicy = previous.updatePolicy := hpol
  have hvt' : b.clearMergeValues.valueType = previous.valueType := hvt
  have hbody' : mergeBody lib b.clearMergeValues.updatePolicy b.clearMergeValues.valueType
      = Except.ok body := hbody
  unfold Builder.Merge
  dsimp only
  rw [if_neg (not_not.mpr hpol'), if_neg (not_not.mpr hvt'), hbody']
  rfl

/-- Values of the user keys after a merge of compatible stores whose policy and
value type select the loop body `body`: a key that `previous` does not hold once
the deleted prefixes are applied keeps what the receiver held, and any other
key holds what one run of the body computes from the receiver and the value of
`previous`. -/
theorem Merge_user_key (lib : GoLib) (b previous : Builder)
    (body : KV → String → String → Option KV)
    (hpol : b.updatePolicy = previous.updatePolicy) (hvt : b.valueType = previous.valueType)
    (hbody : mergeBody lib b.updatePolicy b.valueType = Except.ok body)
    (next' prev' : Builder) (err : Option MergeError)
    (h : b.Merge lib previous = MergeResult.returned next' prev' err)
    (k : String) (hk : k ≠ mergeValuesKey) :
    err = none ∧ prev' = applyDeletedPrefixes b.DeletedPrefixes previous ∧
    ((applyDeletedPrefixes b.DeletedPrefixes previous).KV.get k = none →
        next'.KV.get k = b.KV.get k) ∧
    (∀ v, (applyDeletedPrefixes b.DeletedPrefixes previous).KV.get k = some v →
        ∃ n1, body (b.KV.delete mergeValuesKey) k v = some n1 ∧
          next'.KV.get k = n1.get k) := by
  rw [Merge_of_range lib b previous body hpol hvt hbody] at h
  have hloc := mergeBody_local lib _ _ body hbody
  cases hr : rangeKV body (applyDeletedPrefixes b.DeletedPrefixes previous).KV.entries
      (b.KV.delete mergeValuesKey) with
  | none => simp [hr] at h
  | some kv =>
    simp only [hr, MergeResult.returned.injEq] at h
    obtain ⟨hn, hp, he⟩ := h
    subst hn hp he
    have hget : (mergedBuilder lib b previous kv).KV.get k = kv.get k := by
      unfold mergedBuilder
      rw [writeMergeValues_get lib _ k hk]
    refine ⟨rfl, rfl, ?_, ?_⟩
    · intro hnone
      rw [hget, rangeKV_get_of_absent body hloc _ _ kv hr k hnone, KV.get_delete]
      simp [hk]
    · intro v hv
      obtain ⟨n1, hn1, hg⟩ := rangeKV_get_of_present body hloc _
        (applyDeletedPrefixes b.DeletedPrefixes previous).KV.nodup _ kv hr k v hv
      exact ⟨n1, hn1, by rw [hget, hg]⟩

/-- A merge of compatible stores returns without an error as soon as no run of
the selected loop body panics on an entry of `previous`. -/
theorem Merge_returns (lib : GoLib) (b previous : Builder)
    (body : KV → String → String → Option KV)
    (hpol : b.updatePolicy = previous.updatePolicy) (hvt : b.valueType = previous.valueType)
    (hbody : mergeBody lib b.updatePolicy b.valueType = Except.ok body)
    (hall : ∀ k v, (applyDeletedPrefixes b.DeletedPrefixes previous).KV.get k = some v →
        (body (b.KV.delete mergeValuesKey) k v).isSome) :
    ∃ next', b.Merge lib previous =
      MergeResult.returned next' (applyDeletedPrefixes b.DeletedPrefixes previous) none := by
  rw [Merge_of_range lib b previous body hpol hvt hbody]
  have hloc := mergeBody_local lib _ _ body hbody
  obtain ⟨r, hr⟩ := rangeKV_isSome body hloc _
    (applyDeletedPrefixes b.DeletedPrefixes previous).KV.nodup (b.KV.delete mergeValuesKey) hall
  exact ⟨mergedBuilder lib b previous r, by simp [hr]⟩

/-! ## Facts about decimal text -/

theorem digitVal_digitChar (d : Nat) (hd : d < 10) : digitVal (digitChar d) = some d := by
  interval_cases d <;> decide

theorem digitChar_ne_sign (d : Nat) (hd : d < 10) :
    digitChar d ≠ '+' ∧ digitChar d ≠ '-' := by
  interval_cases d <;> decide

theorem parseDigits_toDigits (fuel n : Nat) (acc : List Char) (h : n < fuel) :
    parseDigits 0 (toDigits fuel n acc) = parseDigits n acc := by
  induction fuel generalizing n acc with
  | zero => omega
  | succ fuel ih =>
    have hd := digitVal_digitChar (n % 10) (Nat.mod_lt n (by decide))
    unfold toDigits
    by_cases h0 : n / 10 = 0
    · rw [if_pos h0]
      have hn : n % 10 = n := by omega
      rw [hn] at hd
      simp only [parseDigits, hd, hn, Nat.zero_mul, Nat.zero_add]
    · rw [if_neg h0, ih (n / 10) _ (by omega)]
      have hn : n / 10 * 10 + n % 10 = n := by omega
      simp only [parseDigits, hd, hn]

theorem toDigits_startsUnsigned (fuel n : Nat) (acc : List Char)
    (h : fuel = 0 → startsUnsigned acc) : startsUnsigned (toDigits fuel n acc) := by
  induction fuel generalizing n acc with
  | zero => exact h rfl
  | succ fuel ih =>
    have hs := digitChar_ne_sign (n % 10) (Nat.mod_lt n (by decide))
    unfold toDigits
    by_cases h0 : n / 10 = 0
    · rw [if_pos h0]
      exact ⟨_, _, rfl, hs.1, hs.2⟩
    · rw [if_neg h0]
      exact ih _ _ (fun _ => ⟨_, _, rfl, hs.1, hs.2⟩)

theorem parseUnsigned_toDigits (n : Nat) : parseUnsigned (toDigits (n + 1) n []) = some n := by
  obtain ⟨c, rest, hc, _, _⟩ := toDigits_startsUnsigned (n + 1) n [] (by omega)
  have h := parseDigits_toDigits (n + 1) n [] (by omega)
  rw [hc] at h
  rw [hc]
  simpa [parseUnsigned, parseDigits] using h

theorem ParseInt_formatUint (n : Nat) (hn : n < 2 ^ 63) :
    ParseInt (formatUint n) = some (n : Int) := by
  obtain ⟨c, rest, hc, hplus, hminus⟩ := toDigits_startsUnsigned (n + 1) n [] (by omega)
  have h := parseUnsigned_toDigits n
  rw [hc] at h
  have hge : ¬ n ≥ 2 ^ 63 := by omega
  have hlt : n < 9223372036854775808 := by omega
  simp [ParseInt, formatUint, hc, hplus, hminus, h, hlt]

theorem ParseInt_formatInt (i : Int) (hlo : -(2 ^ 63) ≤ i) (hhi : i < 2 ^ 63) :
    ParseInt (formatInt i) = some i := by
  by_cases hneg : i < 0
  · have h := parseUnsigned_toDigits i.natAbs
    have hle : ¬ i.natAbs > 2 ^ 63 := by omega
    have hi : -(i.natAbs : Int) = i := by omega
    have hle2 : i.natAbs ≤ 9223372036854775808 := by omega
    have habs : -|i| = i := by rw [abs_of_neg hneg]; omega
    simp [ParseInt, formatInt, hneg, h, hle2, habs]
  · have h := ParseInt_formatUint i.toNat (by omega)
    have hi : (i.toNat : Int) = i := by omega
    simp only [formatInt, hneg, if_false, h, hi]

theorem toUint64_lt (i : Int) : toUint64 i < 2 ^ 64 := by
  unfold toUint64
  omega

theorem foundOrZeroUint64_lt (input : String) (found : Bool) :
    foundOrZeroUint64 input found < 2 ^ 64 := by
  unfold foundOrZeroUint64
  split
  · decide
  · split
    · decide
    · exact toUint64_lt _

theorem foundOrZeroUint64_formatInt (i : Int) (hlo : -(2 ^ 63) ≤ i) (hhi : i < 2 ^ 63) :
    foundOrZeroUint64 (formatInt i) true = toUint64 i := by
  simp [foundOrZeroUint64, ParseInt_formatInt i hlo hhi]

theorem foundOrZeroUint64_formatUint (n : Nat) (hn : n < 2 ^ 63) :
    foundOrZeroUint64 (formatUint n) true = n := by
  have h : toUint64 (n : Int) = n := by unfold toUint64; omega
  simp [foundOrZeroUint64, ParseInt_formatUint n hn, h]

theorem foundOrZeroBigInt_formatInt (i : Int) (hlo : -(2 ^ 63) ≤ i) (hhi : i < 2 ^ 63) :
    foundOrZeroBigInt (formatInt i) true = some i := by
  simp [foundOrZeroBigInt, bytesToBigInt, strToBigInt, ParseInt_formatInt i hlo hhi]

/-! ## Values after a merge -/

theorem mergedKV_of_returned (lib : GoLib) (b previous next' prev' : Builder)
    (h : b.Merge lib previous = MergeResult.returned next' prev' none) :
    mergedKV lib b previous = some next'.KV := by
  simp [mergedKV, h]

theorem returned_of_mergedKV (lib : GoLib) (b previous : Builder)
    (h : (mergedKV lib b previous).isSome = true) :
    ∃ next' prev', b.Merge lib previous = MergeResult.returned next' prev' none := by
  unfold mergedKV at h
  cases hm : b.Merge lib previous with
  | panicked => simp [hm] at h
  | returned next' prev' err =>
    cases err with
    | none => exact ⟨next', prev', rfl⟩
    | some e => simp [hm] at h

/-- A merge that returns without an error was given compatible stores, and its
two switches selected a loop body. -/
theorem compatible_of_returned (lib : GoLib) (b previous next' prev' : Builder)
    (h : b.Merge lib previous = MergeResult.returned next' prev' none) :
    b.updatePolicy = previous.updatePolicy ∧ b.valueType = previous.valueType ∧
      ∃ body, mergeBody lib b.updatePolicy b.valueType = Except.ok body := by
  unfold Builder.Merge at h
  dsimp only at h
  have hp : b.clearMergeValues.updatePolicy = b.updatePolicy := rfl
  have hv : b.clearMergeValues.valueType = b.valueType := rfl
  rw [hp, hv] at h
  by_cases hpol : b.updatePolicy = previous.updatePolicy
  · by_cases hvt : b.valueType = previous.valueType
    · rw [if_neg (not_not.mpr hpol), if_neg (not_not.mpr hvt)] at h
      cases hb : mergeBody lib b.updatePolicy b.valueType with
      | error e => simp [hb] at h
      | ok body => exact ⟨hpol, hvt, body, rfl⟩
    · rw [if_neg (not_not.mpr hpol), if_pos hvt] at h
      simp at h
  · rw [if_pos hpol] at h
    simp at h

/-- Values of the user keys after a merge that returned without an error. -/
theorem mergedValue_of_returned (lib : GoLib) (b previous : Builder)
    (hret : (mergedKV lib b previous).isSome = true) :
    b.updatePolicy = previous.updatePolicy ∧ b.valueType = previous.valueType ∧
    ∃ body, mergeBody lib b.updatePolicy b.valueType = Except.ok body ∧
      ∀ k, k ≠ mergeValuesKey →
        ((applyDeletedPrefixes b.DeletedPrefixes previous).KV.get k = none →
          mergedValue lib b previous k = some (b.KV.get k)) ∧
        (∀ v, (applyDeletedPrefixes b.DeletedPrefixes previous).KV.get k = some v →
          ∃ n1, body (b.KV.delete mergeValuesKey) k v = some n1 ∧ (n1.get k).isSome = true ∧
            mergedValue lib b previous k = some (n1.get k)) := by
  obtain ⟨next', prev', h⟩ := returned_of_mergedKV lib b previous hret
  obtain ⟨hpol, hvt, body, hbody⟩ := compatible_of_returned lib b previous next' prev' h
  refine ⟨hpol, hvt, body, hbody, ?_⟩
  intro k hk
  obtain ⟨_, _, habs, hpres⟩ :=
    Merge_user_key lib b previous body hpol hvt hbody next' prev' none h k hk
  have hmv : mergedValue lib b previous k = some (next'.KV.get k) := by
    simp [mergedValue, mergedKV_of_returned lib b previous next' prev' h]
  refine ⟨fun hnone => by rw [hmv, habs hnone], ?_⟩
  intro v hv
  obtain ⟨n1, hn1, hg⟩ := hpres v hv
  have hloc := mergeBody_local lib _ _ body hbody
  exact ⟨n1, hn1, (hloc.1 _ k v n1 hn1).1, by rw [hmv, hg]⟩

/-- A merge of compatible stores returns without an error when no run of the
selected loop body panics. -/
theorem mergedKV_isSome (lib : GoLib) (b previous : Builder)
    (body : KV → String → String → Option KV)
    (hpol : b.updatePolicy = previous.updatePolicy) (hvt : b.valueType = previous.valueType)
    (hbody : mergeBody lib b.updatePolicy b.valueType = Except.ok body)
    (hall : ∀ k v, (applyDeletedPrefixes b.DeletedPrefixes previous).KV.get k = some v →
        (body (b.KV.delete mergeValuesKey) k v).isSome) :
    (mergedKV lib b previous).isSome = true := by
  obtain ⟨next', h⟩ := Merge_returns lib b previous body hpol hvt hbody hall
  simp [mergedKV_of_returned lib b previous next' _ h]

/-- Value of a user key that both stores hold when the keys are merged. -/
theorem mergedValue_of_body (lib : GoLib) (b previous : Builder)
    (body : KV → String → String → Option KV)
    (hbody : mergeBody lib b.updatePolicy b.valueType = Except.ok body)
    (hret : (mergedKV lib b previous).isSome = true)
    (k v : String) (hk : k ≠ mergeValuesKey)
    (hp : previous.KV.get k = some v) (hcov : coveredBy b.DeletedPrefixes k = false) :
    ∃ n1, body (b.KV.delete mergeValuesKey) k v = some n1 ∧
      mergedValue lib b previous k = some (n1.get k) := by
  obtain ⟨_, _, body', hbody', hkeys⟩ := mergedValue_of_returned lib b previous hret
  rw [hbody] at hbody'
  cases hbody'
  have hprev : (applyDeletedPrefixes b.DeletedPrefixes previous).KV.get k = some v := by
    rw [applyDeletedPrefixes_get, hcov]
    simpa using hp
  obtain ⟨n1, hn1, _, hm⟩ := (hkeys k hk).2 v hprev
  exact ⟨n1, hn1, hm⟩

theorem get_delete_mergeValuesKey (b : Builder) (k : String) (hk : k ≠ mergeValuesKey) :
    (b.KV.delete mergeValuesKey).get k = b.KV.get k := by
  simp [KV.get_delete, hk]

/-! ## Merge laws -/

theorem mergeBody_replace (lib : GoLib) (valueType : String) :
    mergeBody lib UpdatePolicy.REPLACE valueType = Except.ok replaceBody := rfl

theorem mergeBody_ignore (lib : GoLib) (valueType : String) :
    mergeBody lib UpdatePolicy.IGNORE valueType = Except.ok ignoreBody := rfl

theorem replaceBody_isSome (next : KV) (k v : String) : (replaceBody next k v).isSome = true := by
  unfold replaceBody
  split <;> rfl

/-- C1: under the policy REPLACE a merge of two stores with the same value type
returns without an error, and every user key that both the receiver (the partial
store) and `previous` hold keeps the bytes of the receiver. -/
theorem C1_replace_keeps_receiver_bytes (lib : GoLib) (b previous : Builder) (k pv qv : String)
    (hpol : b.updatePolicy = UpdatePolicy.REPLACE)
    (hprevpol : previous.updatePolicy = UpdatePolicy.REPLACE)
    (hvt : b.valueType = previous.valueType) (hk : k ≠ mergeValuesKey)
    (hb : b.KV.get k = some pv) (_hp : previous.KV.get k = some qv) :
    mergedValue lib b previous k = some (some pv) := by
  have hbody : mergeBody lib b.updatePolicy b.valueType = Except.ok replaceBody := by
    rw [hpol]; rfl
  have hret := mergedKV_isSome lib b previous replaceBody (by rw [hpol, hprevpol]) hvt hbody
    (fun k v _ => replaceBody_isSome _ k v)
  obtain ⟨_, _, body, hbody', hkeys⟩ := mergedValue_of_returned lib b previous hret
  rw [hbody] at hbody'
  cases hbody'
  cases hprev : (applyDeletedPrefixes b.DeletedPrefixes previous).KV.get k with
  | none => rw [(hkeys k hk).1 hprev, hb]
  | some v =>
    obtain ⟨n1, hn1, _, hm⟩ := (hkeys k hk).2 v hprev
    have hg : (b.KV.delete mergeValuesKey).get k = some pv := by
      rw [get_delete_mergeValuesKey b k hk, hb]
    simp only [replaceBody, hg, Option.some.injEq] at hn1
    rw [hm, ← hn1, hg]

/-- Witness of C1: a store holding `x = new` merged over one holding `x = old`. -/
theorem C1_replace_keeps_receiver_bytes_witness :
    mergedValue exampleLib
      (exampleStore UpdatePolicy.REPLACE "string" [] [("x", "new")])
      (exampleStore UpdatePolicy.REPLACE "string" [] [("x", "old"), ("y", "1")]) "x"
      = some (some "new") :=
  C1_replace_keeps_receiver_bytes exampleLib
    (exampleStore UpdatePolicy.REPLACE "string" [] [("x", "new")])
    (exampleStore UpdatePolicy.REPLACE "string" [] [("x", "old"), ("y", "1")]) "x" "new" "old"
    rfl rfl rfl (by decide) (by decide) (by decide)

/-- Counterexample to C2 as stated: the receiver holds `ab = 1` and the deleted
prefix `a`, `previous` holds `ab = 2`; the key is in both stores, and after the
merge it holds the bytes of the receiver, not those of `previous`. -/
theorem C2_ignore_counterexample :
    (exampleStore UpdatePolicy.IGNORE "string" ["a"] [("ab", "1")]).KV.get "ab" = some "1" ∧
    (exampleStore UpdatePolicy.IGNORE "string" [] [("ab", "2")]).KV.get "ab" = some "2" ∧
    mergedValue exampleLib
      (exampleStore UpdatePolicy.IGNORE "string" ["a"] [("ab", "1")])
      (exampleStore UpdatePolicy.IGNORE "string" [] [("ab", "2")]) "ab" = some (some "1") ∧
    mergedValue exampleLib
      (exampleStore UpdatePolicy.IGNORE "string" ["a"] [("ab", "1")])
      (exampleStore UpdatePolicy.IGNORE "string" [] [("ab", "2")]) "ab" ≠ some (some "2") := by
  decide

/-- C2 (amended): under the policy IGNORE a merge of two stores with the same
value type returns without an error, and every user key that both the receiver
and `previous` hold and that none of the deleted prefixes of the receiver
covers holds the bytes of `previous` afterwards. -/
theorem C2_ignore_keeps_previous_bytes (lib : GoLib) (b previous : Builder) (k pv qv : String)
    (hpol : b.updatePolicy = UpdatePolicy.IGNORE)
    (hprevpol : previous.updatePolicy = UpdatePolicy.IGNORE)
    (hvt : b.valueType = previous.valueType) (hk : k ≠ mergeValuesKey)
    (_hb : b.KV.get k = some pv) (hp : previous.KV.get k = some qv)
    (hcov : coveredBy b.DeletedPrefixes k = false) :
    mergedValue lib b previous k = some (some qv) := by
  have hbody : mergeBody lib b.updatePolicy b.valueType = Except.ok ignoreBody := by
    rw [hpol]; rfl
  have hret := mergedKV_isSome lib b previous ignoreBody (by rw [hpol, hprevpol]) hvt hbody
    (fun k v _ => rfl)
  obtain ⟨n1, hn1, hm⟩ := mergedValue_of_body lib b previous ignoreBody hbody hret k qv hk hp hcov
  simp only [ignoreBody, Option.some.injEq] at hn1
  rw [hm, ← hn1, KV.get_set]
  simp

/-- Witness of C2 (amended). -/
theorem C2_ignore_keeps_previous_bytes_witness :
    mergedValue exampleLib
      (exampleStore UpdatePolicy.IGNORE "string" ["z"] [("x", "new")])
      (exampleStore UpdatePolicy.IGNORE "string" [] [("x", "old")]) "x"
      = some (some "old") :=
  C2_ignore_keeps_previous_bytes exampleLib
    (exampleStore UpdatePolicy.IGNORE "string" ["z"] [("x", "new")])
    (exampleStore UpdatePolicy.IGNORE "string" [] [("x", "old")]) "x" "new" "old"
    rfl rfl rfl (by decide) (by decide) (by decide) (by decide)

/-- C4: when the update policies or the value types of the two stores differ,
`Merge` returns an error, `previous` is left as it was, and every user key of
the receiver holds what it held before the call. -/
theorem C4_incompatible_stores_error (lib : GoLib) (b previous : Builder)
    (h : b.updatePolicy ≠ previous.updatePolicy ∨ b.valueType ≠ previous.valueType) :
    b.Merge lib previous =
      MergeResult.returned (b.clearMergeValues.writeMergeValues lib) previous
        (some (if b.updatePolicy ≠ previous.updatePolicy then MergeError.incompatiblePolicies
          else MergeError.incompatibleValueTypes)) ∧
    ∀ k, k ≠ mergeValuesKey →
      (b.clearMergeValues.writeMergeValues lib).KV.get k = b.KV.get k := by
  refine ⟨?_, fun k hk => by
    rw [writeMergeValues_get lib _ k hk, clearMergeValues_get b k hk]⟩
  have hp : b.clearMergeValues.updatePolicy = b.updatePolicy := rfl
  have hv : b.clearMergeValues.valueType = b.valueType := rfl
  unfold Builder.Merge
  dsimp only
  rw [hp, hv]
  by_cases hpol : b.updatePolicy = previous.updatePolicy
  · have hvt : b.valueType ≠ previous.valueType := h.resolve_left (not_not.mpr hpol)
    rw [if_neg (not_not.mpr hpol), if_pos hvt, if_neg (not_not.mpr hpol)]
  · rw [if_pos hpol, if_pos hpol]

/-- Witness of C4: a SUM store merged over a MIN store. -/
theorem C4_incompatible_stores_error_witness :
    (exampleStore UpdatePolicy.SUM "int64" ["x"] [("x", "1")]).Merge exampleLib
        (exampleStore UpdatePolicy.MIN "int64" [] [("x", "2")]) =
      MergeResult.returned
        ((exampleStore UpdatePolicy.SUM "int64" ["x"] [("x", "1")]).clearMergeValues.writeMergeValues
          exampleLib)
        (exampleStore UpdatePolicy.MIN "int64" [] [("x", "2")])
        (some MergeError.incompatiblePolicies) :=
  (C4_incompatible_stores_error exampleLib
    (exampleStore UpdatePolicy.SUM "int64" ["x"] [("x", "1")])
    (exampleStore UpdatePolicy.MIN "int64" [] [("x", "2")]) (Or.inl (by decide))).1

theorem mergeBody_sum_int64 (lib : GoLib) :
    mergeBody lib UpdatePolicy.SUM OutputValueTypeInt64 = Except.ok sumInt64Body := rfl

theorem mergeBody_min_int64 (lib : GoLib) :
    mergeBody lib UpdatePolicy.MIN OutputValueTypeInt64 = Except.ok minInt64Body := rfl

theorem mergeBody_max_int64 (lib : GoLib) :
    mergeBody lib UpdatePolicy.MAX OutputValueTypeInt64 = Except.ok maxInt64Body := rfl

theorem toUint64_add (a c : Int) :
    (toUint64 a + toUint64 c) % 2 ^ 64 = ((a + c) % 2 ^ 64).toNat := by
  unfold toUint64
  omega

/-- A merge of two SUM stores on `int64` always returns without an error. -/
theorem sum_int64_returns (lib : GoLib) (b previous : Builder)
    (hpol : b.updatePolicy = UpdatePolicy.SUM) (hprevpol : previous.updatePolicy = UpdatePolicy.SUM)
    (hvt : b.valueType = OutputValueTypeInt64) (hprevvt : previous.valueType = OutputValueTypeInt64) :
    mergeBody lib b.updatePolicy b.valueType = Except.ok sumInt64Body ∧
      (mergedKV lib b previous).isSome = true := by
  have hbody : mergeBody lib b.updatePolicy b.valueType = Except.ok sumInt64Body := by
    rw [hpol, hvt]; rfl
  exact ⟨hbody, mergedKV_isSome lib b previous sumInt64Body (by rw [hpol, hprevpol])
    (by rw [hvt, hprevvt]) hbody (fun k v _ => rfl)⟩

/-- Value of a key that both SUM stores on `int64` hold when the keys are merged. -/
theorem sum_int64_value (lib : GoLib) (b previous : Builder) (k pv qv : String)
    (hpol : b.updatePolicy = UpdatePolicy.SUM) (hprevpol : previous.updatePolicy = UpdatePolicy.SUM)
    (hvt : b.valueType = OutputValueTypeInt64) (hprevvt : previous.valueType = OutputValueTypeInt64)
    (hk : k ≠ mergeValuesKey)
    (hb : b.KV.get k = some pv) (hp : previous.KV.get k = some qv)
    (hcov : coveredBy b.DeletedPrefixes k = false) :
    mergedValue lib b previous k =
      some (some (formatUint
        ((foundOrZeroUint64 pv true + foundOrZeroUint64 qv true) % 2 ^ 64))) := by
  obtain ⟨hbody, hret⟩ := sum_int64_returns lib b previous hpol hprevpol hvt hprevvt
  obtain ⟨n1, hn1, hm⟩ :=
    mergedValue_of_body lib b previous sumInt64Body hbody hret k qv hk hp hcov
  have hg : (b.KV.delete mergeValuesKey).get k = some pv := by
    rw [get_delete_mergeValuesKey b k hk, hb]
  simp only [sumInt64Body, hg, Option.getD_some, Option.isSome_some, Option.some.injEq] at hn1
  rw [hm, ← hn1, KV.get_set]
  simp

/-- Counterexample to C5 as stated: the receiver holds `k = 5` and the deleted
prefix `k`, `previous` holds `k = 7`; the key is in both stores with decimal
values, and after the merge it holds `5`, not the text `12` of the sum. -/
theorem C5_sum_int64_counterexample :
    (exampleStore UpdatePolicy.SUM "int64" ["k"] [("k", "5")]).KV.get "k"
      = some (formatInt 5) ∧
    (exampleStore UpdatePolicy.SUM "int64" [] [("k", "7")]).KV.get "k" = some (formatInt 7) ∧
    mergedValue exampleLib
      (exampleStore UpdatePolicy.SUM "int64" ["k"] [("k", "5")])
      (exampleStore UpdatePolicy.SUM "int64" [] [("k", "7")]) "k" = some (some "5") ∧
    formatUint (((5 : Int) + 7) % 2 ^ 64).toNat = "12" := by
  decide

/-- C5 (amended): under the policy SUM with value type `int64`, a user key that
both stores hold with the decimal text of signed 64-bit integers `a` and `c`,
and that none of the deleted prefixes of the receiver covers, holds after the
merge the decimal text of `(a + c) mod 2^64` read as an unsigned number. -/
theorem C5_sum_int64_unsigned_wrap (lib : GoLib) (b previous : Builder) (k : String) (a c : Int)
    (ha : -(2 ^ 63) ≤ a ∧ a < 2 ^ 63) (hc : -(2 ^ 63) ≤ c ∧ c < 2 ^ 63)
    (hpol : b.updatePolicy = UpdatePolicy.SUM) (hprevpol : previous.updatePolicy = UpdatePolicy.SUM)
    (hvt : b.valueType = OutputValueTypeInt64) (hprevvt : previous.valueType = OutputValueTypeInt64)
    (hk : k ≠ mergeValuesKey)
    (hb : b.KV.get k = some (formatInt a)) (hp : previous.KV.get k = some (formatInt c))
    (hcov : coveredBy b.DeletedPrefixes k = false) :
    mergedValue lib b previous k = some (some (formatUint ((a + c) % 2 ^ 64).toNat)) := by
  rw [sum_int64_value lib b previous k _ _ hpol hprevpol hvt hprevvt hk hb hp hcov,
    foundOrZeroUint64_formatInt a ha.1 ha.2, foundOrZeroUint64_formatInt c hc.1 hc.2,
    toUint64_add]

/-- Witness of C5 (amended): `-1` merged over `-2` gives the unsigned text of `-3`. -/
theorem C5_sum_int64_unsigned_wrap_witness :
    mergedValue exampleLib
      (exampleStore UpdatePolicy.SUM "int64" [] [("k", "-1")])
      (exampleStore UpdatePolicy.SUM "int64" [] [("k", "-2")]) "k"
      = some (some (formatUint (((-1 : Int) + (-2)) % 2 ^ 64).toNat)) :=
  C5_sum_int64_unsigned_wrap exampleLib
    (exampleStore UpdatePolicy.SUM "int64" [] [("k", "-1")])
    (exampleStore UpdatePolicy.SUM "int64" [] [("k", "-2")]) "k" (-1) (-2)
    (by decide) (by decide) rfl rfl rfl rfl (by decide) (by decide) (by decide) (by decide)

/-- Counterexample to C8 as stated: `A` holds `k = 5` and the deleted prefix `k`,
`B` holds `k = 7`; the key is in both stores, `A.Merge(B)` leaves `5` under it
and `B.Merge(A)` leaves `12`. -/
theorem C8_sum_int64_counterexample :
    (exampleStore UpdatePolicy.SUM "int64" ["k"] [("k", "5")]).KV.get "k" = some "5" ∧
    (exampleStore UpdatePolicy.SUM "int64" [] [("k", "7")]).KV.get "k" = some "7" ∧
    mergedValue exampleLib
      (exampleStore UpdatePolicy.SUM "int64" ["k"] [("k", "5")])
      (exampleStore UpdatePolicy.SUM "int64" [] [("k", "7")]) "k" = some (some "5") ∧
    mergedValue exampleLib
      (exampleStore UpdatePolicy.SUM "int64" [] [("k", "7")])
      (exampleStore UpdatePolicy.SUM "int64" ["k"] [("k", "5")]) "k" = some (some "12") := by
  decide

/-- C8 (amended): for two SUM stores `A` and `B` on `int64` and a user key that
both hold and that no deleted prefix of either store covers, both `A.Merge(B)`
and `B.Merge(A)` return without an error and leave the same bytes under the key. -/
theorem C8_sum_int64_commutative (lib : GoLib) (A B : Builder) (k va vb : String)
    (hA : A.updatePolicy = UpdatePolicy.SUM) (hB : B.updatePolicy = UpdatePolicy.SUM)
    (hAvt : A.valueType = OutputValueTypeInt64) (hBvt : B.valueType = OutputValueTypeInt64)
    (hk : k ≠ mergeValuesKey)
    (ha : A.KV.get k = some va) (hb : B.KV.get k = some vb)
    (hcovA : coveredBy A.DeletedPrefixes k = false)
    (hcovB : coveredBy B.DeletedPrefixes k = false) :
    (∃ w, mergedValue lib A B k = some (some w)) ∧
      mergedValue lib A B k = mergedValue lib B A k := by
  have h1 := sum_int64_value lib A B k va vb hA hB hAvt hBvt hk ha hb hcovA
  have h2 := sum_int64_value lib B A k vb va hB hA hBvt hAvt hk hb ha hcovB
  refine ⟨⟨_, h1⟩, ?_⟩
  rw [h1, h2, Nat.add_comm]

/-- Witness of C8 (amended). -/
theorem C8_sum_int64_commutative_witness :
    (∃ w, mergedValue exampleLib
      (exampleStore UpdatePolicy.SUM "int64" ["a"] [("k", "5")])
      (exampleStore UpdatePolicy.SUM "int64" ["b"] [("k", "-7")]) "k" = some (some w)) ∧
    mergedValue exampleLib
      (exampleStore UpdatePolicy.SUM "int64" ["a"] [("k", "5")])
      (exampleStore UpdatePolicy.SUM "int64" ["b"] [("k", "-7")]) "k" =
    mergedValue exampleLib
      (exampleStore UpdatePolicy.SUM "int64" ["b"] [("k", "-7")])
      (exampleStore UpdatePolicy.SUM "int64" ["a"] [("k", "5")]) "k" :=
  C8_sum_int64_commutative exampleLib
    (exampleStore UpdatePolicy.SUM "int64" ["a"] [("k", "5")])
    (exampleStore UpdatePolicy.SUM "int64" ["b"] [("k", "-7")]) "k" "5" "-7"
    rfl rfl rfl rfl (by decide) (by decide) (by decide) (by decide) (by decide)

theorem mergeBody_sum_bigInt (lib : GoLib) :
    mergeBody lib UpdatePolicy.SUM OutputValueTypeBigInt = Except.ok sumBigIntBody := rfl

theorem mergeBody_min_bigInt (lib : GoLib) :
    mergeBody lib UpdatePolicy.MIN OutputValueTypeBigInt = Except.ok minBigIntBody := rfl

theorem mergeBody_max_bigInt (lib : GoLib) :
    mergeBody lib UpdatePolicy.MAX OutputValueTypeBigInt = Except.ok maxBigIntBody := rfl

/-- Value that a typed loop body on `int64` leaves under a key the receiver does
not hold: the text of the number read from the bytes of `previous`. -/
theorem int64_body_of_absent (policy : UpdatePolicy) (lib : GoLib)
    (body : KV → String → String → Option KV)
    (hpolicy : policy = UpdatePolicy.SUM ∨ policy = UpdatePolicy.MIN ∨ policy = UpdatePolicy.MAX)
    (hbody : mergeBody lib policy OutputValueTypeInt64 = Except.ok body)
    (next n1 : KV) (k v : String) (hg : next.get k = none) (hn1 : body next k v = some n1) :
    n1.get k = some (formatUint (foundOrZeroUint64 v true)) := by
  have hlt := foundOrZeroUint64_lt v true
  rcases hpolicy with h | h | h
  · subst h
    rw [mergeBody_sum_int64] at hbody
    cases hbody
    simp only [sumInt64Body, hg, Option.getD_none, Option.isSome_none, Option.some.injEq] at hn1
    have h0 : foundOrZeroUint64 "" false = 0 := rfl
    rw [← hn1, KV.get_set, h0, Nat.zero_add, Nat.mod_eq_of_lt hlt]
    simp
  · subst h
    rw [mergeBody_min_int64] at hbody
    cases hbody
    simp only [minInt64Body, hg, Option.some.injEq] at hn1
    rw [← hn1, KV.get_set]
    simp
  · subst h
    rw [mergeBody_max_int64] at hbody
    cases hbody
    simp only [maxInt64Body, hg, Option.some.injEq] at hn1
    rw [← hn1, KV.get_set]
    simp

/-- Value that a typed loop body on `bigInt` leaves under a key the receiver does
not hold, when the bytes of `previous` are the decimal text of an `int64`. -/
theorem bigInt_body_of_absent (policy : UpdatePolicy) (lib : GoLib)
    (body : KV → String → String → Option KV)
    (hpolicy : policy = UpdatePolicy.SUM ∨ policy = UpdatePolicy.MIN ∨ policy = UpdatePolicy.MAX)
    (hbody : mergeBody lib policy OutputValueTypeBigInt = Except.ok body)
    (next n1 : KV) (k : String) (i : Int) (hlo : -(2 ^ 63) ≤ i) (hhi : i < 2 ^ 63)
    (hg : next.get k = none) (hn1 : body next k (formatInt i) = some n1) :
    n1.get k = some (formatInt i) := by
  have hparse := foundOrZeroBigInt_formatInt i hlo hhi
  rcases hpolicy with h | h | h
  · subst h
    rw [mergeBody_sum_bigInt] at hbody
    cases hbody
    have h0 : foundOrZeroBigInt "" false = some 0 := rfl
    simp only [sumBigIntBody, hg, Option.getD_none, Option.isSome_none, h0, hparse,
      Option.some.injEq, zero_add] at hn1
    rw [← hn1, KV.get_set]
    simp
  · subst h
    rw [mergeBody_min_bigInt] at hbody
    cases hbody
    simp only [minBigIntBody, hg, hparse, Option.some.injEq] at hn1
    rw [← hn1, KV.get_set]
    simp
  · subst h
    rw [mergeBody_max_bigInt] at hbody
    cases hbody
    simp only [maxBigIntBody, hg, hparse, Option.some.injEq] at hn1
    rw [← hn1, KV.get_set]
    simp

/-- C3: evaluation of `Merge` on `int64` where `previous` alone holds `x = -5`,
the canonical text of a signed 64-bit integer, the receiver holds `y = 1`, and
no prefix is deleted. Under MIN, under MAX and under SUM the value is read as
the `uint64` 18446744073709551611 and written as that unsigned text, so the key
does not keep the bytes of `previous`; the key of the receiver keeps its bytes. -/
theorem C3_previous_only_negative_rewritten :
    (exampleStore UpdatePolicy.MIN "int64" [] [("y", "1")]).KV.get "x" = none ∧
    (exampleStore UpdatePolicy.MIN "int64" [] [("x", "-5")]).KV.get "x" = some (formatInt (-5)) ∧
    coveredBy (exampleStore UpdatePolicy.MIN "int64" [] [("y", "1")]).DeletedPrefixes "x"
      = false ∧
    mergedValue exampleLib
      (exampleStore UpdatePolicy.MIN "int64" [] [("y", "1")])
      (exampleStore UpdatePolicy.MIN "int64" [] [("x", "-5")]) "x"
      = some (some "18446744073709551611") ∧
    mergedValue exampleLib
      (exampleStore UpdatePolicy.MAX "int64" [] [("y", "1")])
      (exampleStore UpdatePolicy.MAX "int64" [] [("x", "-5")]) "x"
      = some (some "18446744073709551611") ∧
    mergedValue exampleLib
      (exampleStore UpdatePolicy.SUM "int64" [] [("y", "1")])
      (exampleStore UpdatePolicy.SUM "int64" [] [("x", "-5")]) "x"
      = some (some "18446744073709551611") ∧
    mergedValue exampleLib
      (exampleStore UpdatePolicy.MIN "int64" [] [("y", "1")])
      (exampleStore UpdatePolicy.MIN "int64" [] [("x", "-5")]) "y" = some (some "1") := by
  decide

/-- An evaluation of `Merge` under SUM on `int64` where `previous` alone holds the
bytes `007`: the key holds the re-encoded number `7` afterwards. -/
theorem previous_only_value_re_encoded :
    (exampleStore UpdatePolicy.SUM "int64" [] []).KV.get "x" = none ∧
    (exampleStore UpdatePolicy.SUM "int64" [] [("x", "007")]).KV.get "x" = some "007" ∧
    coveredBy (exampleStore UpdatePolicy.SUM "int64" [] []).DeletedPrefixes "x" = false ∧
    mergedValue exampleLib
      (exampleStore UpdatePolicy.SUM "int64" [] [])
      (exampleStore UpdatePolicy.SUM "int64" [] [("x", "007")]) "x" = some (some "7") := by
  decide

/-- What holds of the keys that one store alone holds when `Merge` returns without
an error: a user key held by the receiver alone keeps the bytes of the
receiver; a user key held by `previous` alone and covered by no deleted prefix
of the receiver is present afterwards, with the bytes of `previous` under
REPLACE and IGNORE, and under SUM, MIN and MAX with the bytes of `previous` when
they are the decimal text of a number in `[0, 2^63)` on `int64` and of a number
in `[-2^63, 2^63)` on `bigInt`. -/
theorem keys_held_by_one_store (lib : GoLib) (b previous : Builder)
    (hret : (mergedKV lib b previous).isSome = true) :
    (∀ k v, k ≠ mergeValuesKey → b.KV.get k = some v → previous.KV.get k = none →
      mergedValue lib b previous k = some (some v)) ∧
    (∀ k v, k ≠ mergeValuesKey → b.KV.get k = none → previous.KV.get k = some v →
      coveredBy b.DeletedPrefixes k = false →
      (∃ w, mergedValue lib b previous k = some (some w)) ∧
      (b.updatePolicy = UpdatePolicy.REPLACE ∨ b.updatePolicy = UpdatePolicy.IGNORE →
        mergedValue lib b previous k = some (some v)) ∧
      (b.updatePolicy = UpdatePolicy.SUM ∨ b.updatePolicy = UpdatePolicy.MIN ∨
          b.updatePolicy = UpdatePolicy.MAX →
        b.valueType = OutputValueTypeInt64 →
        ∀ n : Nat, n < 2 ^ 63 → v = formatUint n →
          mergedValue lib b previous k = some (some v)) ∧
      (b.updatePolicy = UpdatePolicy.SUM ∨ b.updatePolicy = UpdatePolicy.MIN ∨
          b.updatePolicy = UpdatePolicy.MAX →
        b.valueType = OutputValueTypeBigInt →
        ∀ i : Int, -(2 ^ 63) ≤ i → i < 2 ^ 63 → v = formatInt i →
          mergedValue lib b previous k = some (some v))) := by
  obtain ⟨_, _, body, hbody, hkeys⟩ := mergedValue_of_returned lib b previous hret
  refine ⟨?_, ?_⟩
  · intro k v hk hb hp
    have hprev : (applyDeletedPrefixes b.DeletedPrefixes previous).KV.get k = none := by
      rw [applyDeletedPrefixes_get, hp]
      simp
    rw [(hkeys k hk).1 hprev, hb]
  · intro k v hk hb hp hcov
    have hprev : (applyDeletedPrefixes b.DeletedPrefixes previous).KV.get k = some v := by
      rw [applyDeletedPrefixes_get, hcov]
      simpa using hp
    obtain ⟨n1, hn1, hsome, hm⟩ := (hkeys k hk).2 v hprev
    have hg : (b.KV.delete mergeValuesKey).get k = none := by
      rw [get_delete_mergeValuesKey b k hk, hb]
    refine ⟨?_, ?_, ?_, ?_⟩
    · cases hw : n1.get k with
      | none => simp [hw] at hsome
      | some w => exact ⟨w, by rw [hm, hw]⟩
    · intro hpol
      rcases hpol with h | h
      · rw [h, mergeBody_replace] at hbody
        cases hbody
        simp only [replaceBody, hg, Option.some.injEq] at hn1
        rw [hm, ← hn1, KV.get_set]
        simp
      · rw [h, mergeBody_ignore] at hbody
        cases hbody
        simp only [ignoreBody, Option.some.injEq] at hn1
        rw [hm, ← hn1, KV.get_set]
        simp
    · intro hpol hvt n hn hv
      rw [hvt] at hbody
      have hval := int64_body_of_absent b.updatePolicy lib body hpol hbody _ n1 k v hg hn1
      rw [hm, hval, hv, foundOrZeroUint64_formatUint n hn]
    · intro hpol hvt i hlo hhi hv
      rw [hvt] at hbody
      subst hv
      rw [hm, bigInt_body_of_absent b.updatePolicy lib body hpol hbody _ n1 k i hlo hhi hg hn1]

/-- An instance of `keys_held_by_one_store`: under MIN on `int64` the receiver
alone holds `p = -4`, `previous` alone holds `q = 12`, and the prefix `z` is
deleted. -/
theorem keys_held_by_one_store_example :
    mergedValue exampleLib
      (exampleStore UpdatePolicy.MIN "int64" ["z"] [("p", "-4")])
      (exampleStore UpdatePolicy.MIN "int64" [] [("q", "12")]) "p" = some (some "-4") ∧
    mergedValue exampleLib
      (exampleStore UpdatePolicy.MIN "int64" ["z"] [("p", "-4")])
      (exampleStore UpdatePolicy.MIN "int64" [] [("q", "12")]) "q" = some (some "12") :=
  ⟨(keys_held_by_one_store exampleLib
      (exampleStore UpdatePolicy.MIN "int64" ["z"] [("p", "-4")])
      (exampleStore UpdatePolicy.MIN "int64" [] [("q", "12")]) (by decide)).1
      "p" "-4" (by decide) (by decide) (by decide),
    ((keys_held_by_one_store exampleLib
      (exampleStore UpdatePolicy.MIN "int64" ["z"] [("p", "-4")])
      (exampleStore UpdatePolicy.MIN "int64" [] [("q", "12")]) (by decide)).2
      "q" "12" (by decide) (by decide) (by decide) (by decide)).2.2.1
      (Or.inr (Or.inl rfl)) rfl 12 (by decide) (by decide)⟩

/-- C6: evaluation of `Merge` under SUM on `bigInt` where the receiver holds
`k = 1` and `previous` holds `k = 9223372036854775808` (that is `2^63`):
`strToBigInt` reads the text with `strconv.ParseInt(in, 10, 64)`, fails on it and
panics, so the call does not complete; the exact sum would be
`9223372036854775809`. -/
theorem C6_sum_bigInt_panics_beyond_int64 :
    strToBigInt "9223372036854775808" = none ∧
    (exampleStore UpdatePolicy.SUM "bigInt" [] [("k", "1")]).Merge exampleLib
        (exampleStore UpdatePolicy.SUM "bigInt" [] [("k", "9223372036854775808")])
      = MergeResult.panicked ∧
    formatInt (1 + 9223372036854775808) = "9223372036854775809" :=
  ⟨by decide, rfl, by decide⟩

/-- C7: evaluation of two orders of merging under SUM on `int64` for the stores
`A` with `k = 1`, `B` with `k = 0` and `C` with `k = -1`: `(A.Merge(B)).Merge(C)`
leaves `0` under the key, whereas `A.Merge(B.Merge(C))` leaves `1`, because
`B.Merge(C)` writes the unsigned text `18446744073709551615`, which
`foundOrZeroUint64` then fails to read and takes for zero. -/
theorem C7_sum_int64_not_associative :
    ((merged exampleLib
        (exampleStore UpdatePolicy.SUM "int64" [] [("k", "1")])
        (exampleStore UpdatePolicy.SUM "int64" [] [("k", "0")])).bind
      (fun r => mergedValue exampleLib r
        (exampleStore UpdatePolicy.SUM "int64" [] [("k", "-1")]) "k")) = some (some "0") ∧
    ((merged exampleLib
        (exampleStore UpdatePolicy.SUM "int64" [] [("k", "0")])
        (exampleStore UpdatePolicy.SUM "int64" [] [("k", "-1")])).bind
      (fun r => mergedValue exampleLib
        (exampleStore UpdatePolicy.SUM "int64" [] [("k", "1")]) r "k")) = some (some "1") ∧
    mergedValue exampleLib
        (exampleStore UpdatePolicy.SUM "int64" [] [("k", "0")])
        (exampleStore UpdatePolicy.SUM "int64" [] [("k", "-1")]) "k"
      = some (some "18446744073709551615") ∧
    foundOrZeroUint64 "18446744073709551615" true = 0 := by
  decide

/-- C9: evaluation of `Merge` under MIN on `int64` where the receiver holds
`x = 1` and `previous` holds `x = -1`: the values are compared as `uint64`, so
the key holds `1` afterwards, whereas the signed minimum is `-1`. -/
theorem C9_min_int64_compares_unsigned :
    mergedValue exampleLib
      (exampleStore UpdatePolicy.MIN "int64" [] [("x", "1")])
      (exampleStore UpdatePolicy.MIN "int64" [] [("x", "-1")]) "x" = some (some "1") ∧
    formatInt (min 1 (-1)) = "-1" ∧
    foundOrZeroUint64 "-1" true = 18446744073709551615 := by
  decide

/-- C10: evaluation of `Merge` under MIN on `bigInt` where the receiver holds
`x = 3` and `previous` holds `x = 9223372036854775808` (that is `2^63`):
`strToBigInt` panics on the value of `previous`, so no minimum is written; on
the values of the seed scenario, `10` and `3`, the key holds `3`. -/
theorem C10_min_bigInt_panics_beyond_int64 :
    (exampleStore UpdatePolicy.MIN "bigInt" [] [("x", "3")]).Merge exampleLib
        (exampleStore UpdatePolicy.MIN "bigInt" [] [("x", "9223372036854775808")])
      = MergeResult.panicked ∧
    formatInt (min 9223372036854775808 3) = "3" ∧
    mergedValue exampleLib
      (exampleStore UpdatePolicy.MIN "bigInt" [] [("x", "3")])
      (exampleStore UpdatePolicy.MIN "bigInt" [] [("x", "10")]) "x" = some (some "3") :=
  ⟨rfl, by decide, by decide⟩

/-! ## What holds of the typed merges on values that `strconv.ParseInt` reads -/

/-- A merge over a `previous` store without any entry returns without an error,
whatever the accepted policy and value type, and leaves every user key of the
receiver as it was. -/
theorem merge_over_empty_previous (lib : GoLib) (b previous : Builder)
    (body : KV → String → String → Option KV)
    (hpol : b.updatePolicy = previous.updatePolicy) (hvt : b.valueType = previous.valueType)
    (hbody : mergeBody lib b.updatePolicy b.valueType = Except.ok body)
    (hempty : ∀ k, previous.KV.get k = none) (k : String) (hk : k ≠ mergeValuesKey) :
    mergedValue lib b previous k = some (b.KV.get k) := by
  have hprev : ∀ k, (applyDeletedPrefixes b.DeletedPrefixes previous).KV.get k = none := by
    intro k
    rw [applyDeletedPrefixes_get, hempty]
    simp
  have hret := mergedKV_isSome lib b previous body hpol hvt hbody (by
    intro k v hkv
    rw [hprev] at hkv
    exact Option.noConfusion hkv)
  obtain ⟨_, _, _, _, hkeys⟩ := mergedValue_of_returned lib b previous hret
  exact (hkeys k hk).1 (hprev k)

/-- Under MIN on `bigInt`, when the merge returns without an error, a user key
that both stores hold with the decimal text of numbers `a` and `c` in
`[-2^63, 2^63)`, and that no deleted prefix of the receiver covers, holds the
decimal text of their minimum afterwards. -/
theorem min_bigInt_value_in_int64_range (lib : GoLib) (b previous : Builder) (k : String)
    (a c : Int) (ha : -(2 ^ 63) ≤ a ∧ a < 2 ^ 63) (hc : -(2 ^ 63) ≤ c ∧ c < 2 ^ 63)
    (hpol : b.updatePolicy = UpdatePolicy.MIN) (hvt : b.valueType = OutputValueTypeBigInt)
    (hret : (mergedKV lib b previous).isSome = true) (hk : k ≠ mergeValuesKey)
    (hb : b.KV.get k = some (formatInt a)) (hp : previous.KV.get k = some (formatInt c))
    (hcov : coveredBy b.DeletedPrefixes k = false) :
    mergedValue lib b previous k = some (some (formatInt (min a c))) := by
  have hbody : mergeBody lib b.updatePolicy b.valueType = Except.ok minBigIntBody := by
    rw [hpol, hvt]; rfl
  obtain ⟨n1, hn1, hm⟩ :=
    mergedValue_of_body lib b previous minBigIntBody hbody hret k _ hk hp hcov
  have hg : (b.KV.delete mergeValuesKey).get k = some (formatInt a) := by
    rw [get_delete_mergeValuesKey b k hk, hb]
  simp only [minBigIntBody, hg, foundOrZeroBigInt_formatInt a ha.1 ha.2,
    foundOrZeroBigInt_formatInt c hc.1 hc.2, Option.some.injEq] at hn1
  rw [hm, ← hn1, KV.get_set]
  by_cases hle : a ≤ c
  · simp [hle]
  · have hca : c ≤ a := by omega
    simp [hle, min_eq_right hca]

/-- Under MIN on `int64` a user key that both stores hold with the decimal text
of numbers `a` and `c` in `[0, 2^63)`, and that no deleted prefix of the
receiver covers, holds the decimal text of their minimum afterwards. -/
theorem min_int64_value_of_nonneg (lib : GoLib) (b previous : Builder) (k : String)
    (a c : Nat) (ha : a < 2 ^ 63) (hc : c < 2 ^ 63)
    (hpol : b.updatePolicy = UpdatePolicy.MIN) (hprevpol : previous.updatePolicy = UpdatePolicy.MIN)
    (hvt : b.valueType = OutputValueTypeInt64) (hprevvt : previous.valueType = OutputValueTypeInt64)
    (hk : k ≠ mergeValuesKey)
    (hb : b.KV.get k = some (formatUint a)) (hp : previous.KV.get k = some (formatUint c))
    (hcov : coveredBy b.DeletedPrefixes k = false) :
    mergedValue lib b previous k = some (some (formatUint (min a c))) := by
  have hbody : mergeBody lib b.updatePolicy b.valueType = Except.ok minInt64Body := by
    rw [hpol, hvt]; rfl
  have hret := mergedKV_isSome lib b previous minInt64Body (by rw [hpol, hprevpol])
    (by rw [hvt, hprevvt]) hbody (by
      intro k v _
      unfold minInt64Body
      split <;> rfl)
  obtain ⟨n1, hn1, hm⟩ :=
    mergedValue_of_body lib b previous minInt64Body hbody hret k _ hk hp hcov
  have hg : (b.KV.delete mergeValuesKey).get k = some (formatUint a) := by
    rw [get_delete_mergeValuesKey b k hk, hb]
  simp only [minInt64Body, hg, foundOrZeroUint64_formatUint a ha,
    foundOrZeroUint64_formatUint c hc, Option.some.injEq] at hn1
  rw [hm, ← hn1, KV.get_set]
  by_cases hle : a ≤ c
  · simp [hle]
  · have hca : c ≤ a := by omega
    simp [hle, min_eq_right hca]

/-! ## Idempotence, unsupported policies, block range, deleted prefixes, merge values -/

/-- C11: evaluation of `Merge` under MIN and under MAX on `int64` where the
receiver and `previous` both hold `x = -1`, the canonical text of a signed
64-bit integer: the value is read as the `uint64` 18446744073709551615 and
written back as that unsigned text, so the key does not keep its bytes. -/
theorem C11_min_max_int64_not_idempotent :
    mergedValue exampleLib
      (exampleStore UpdatePolicy.MIN "int64" [] [("x", "-1")])
      (exampleStore UpdatePolicy.MIN "int64" [] [("x", "-1")]) "x"
      = some (some "18446744073709551615") ∧
    mergedValue exampleLib
      (exampleStore UpdatePolicy.MAX "int64" [] [("x", "-1")])
      (exampleStore UpdatePolicy.MAX "int64" [] [("x", "-1")]) "x"
      = some (some "18446744073709551615") ∧
    formatInt (-1) = "-1" := by
  decide

/-- Under MIN and under MAX on `int64`, a user key that both stores hold with
the decimal text of the same number in `[0, 2^63)` keeps its bytes, whether or
not a deleted prefix covers it. -/
theorem min_max_int64_idempotent_of_nonneg (lib : GoLib) (b previous : Builder) (k : String)
    (n : Nat) (hn : n < 2 ^ 63)
    (hpol : b.updatePolicy = UpdatePolicy.MIN ∨ b.updatePolicy = UpdatePolicy.MAX)
    (hprevpol : previous.updatePolicy = b.updatePolicy)
    (hvt : b.valueType = OutputValueTypeInt64) (hprevvt : previous.valueType = OutputValueTypeInt64)
    (hk : k ≠ mergeValuesKey)
    (hb : b.KV.get k = some (formatUint n)) (hp : previous.KV.get k = some (formatUint n)) :
    mergedValue lib b previous k = some (some (formatUint n)) := by
  have hparse := foundOrZeroUint64_formatUint n hn
  have hg : (b.KV.delete mergeValuesKey).get k = some (formatUint n) := by
    rw [get_delete_mergeValuesKey b k hk, hb]
  rcases hpol with h | h
  · have hbody : mergeBody lib b.updatePolicy b.valueType = Except.ok minInt64Body := by
      rw [h, hvt]; rfl
    have hret := mergedKV_isSome lib b previous minInt64Body hprevpol.symm
      (by rw [hvt, hprevvt]) hbody (by
        intro k v _
        unfold minInt64Body
        split <;> rfl)
    obtain ⟨_, _, body, hbody', hkeys⟩ := mergedValue_of_returned lib b previous hret
    rw [hbody] at hbody'
    cases hbody'
    cases hprev : (applyDeletedPrefixes b.DeletedPrefixes previous).KV.get k with
    | none => rw [(hkeys k hk).1 hprev, hb]
    | some v =>
      have hv : v = formatUint n := by
        rw [applyDeletedPrefixes_get] at hprev
        split at hprev
        · exact Option.noConfusion hprev
        · rw [hp] at hprev
          exact (Option.some.inj hprev).symm
      subst hv
      obtain ⟨n1, hn1, _, hm⟩ := (hkeys k hk).2 _ hprev
      simp only [minInt64Body, hg, hparse, le_refl, if_true, Option.some.injEq] at hn1
      rw [hm, ← hn1, KV.get_set]
      simp
  · have hbody : mergeBody lib b.updatePolicy b.valueType = Except.ok maxInt64Body := by
      rw [h, hvt]; rfl
    have hret := mergedKV_isSome lib b previous maxInt64Body hprevpol.symm
      (by rw [hvt, hprevvt]) hbody (by
        intro k v _
        unfold maxInt64Body
        split <;> rfl)
    obtain ⟨_, _, body, hbody', hkeys⟩ := mergedValue_of_returned lib b previous hret
    rw [hbody] at hbody'
    cases hbody'
    cases hprev : (applyDeletedPrefixes b.DeletedPrefixes previous).KV.get k with
    | none => rw [(hkeys k hk).1 hprev, hb]
    | some v =>
      have hv : v = formatUint n := by
        rw [applyDeletedPrefixes_get] at hprev
        split at hprev
        · exact Option.noConfusion hprev
        · rw [hp] at hprev
          exact (Option.some.inj hprev).symm
      subst hv
      obtain ⟨n1, hn1, _, hm⟩ := (hkeys k hk).2 _ hprev
      simp only [maxInt64Body, hg, hparse, ge_iff_le, le_refl, if_true, Option.some.injEq] at hn1
      rw [hm, ← hn1, KV.get_set]
      simp

/-- Counterexample to C12 as stated: two stores with the policy APPEND and the
value type `string` both hold `k`; `Merge` returns the error of the `default`
branch of its switch and the key keeps the bytes of the receiver, not the
concatenation `ab` followed by `cd`. -/
theorem C12_append_counterexample :
    (exampleStore UpdatePolicy.APPEND "string" [] [("k", "cd")]).KV.get "k" = some "cd" ∧
    (exampleStore UpdatePolicy.APPEND "string" [] [("k", "ab")]).KV.get "k" = some "ab" ∧
    mergeError exampleLib
      (exampleStore UpdatePolicy.APPEND "string" [] [("k", "cd")])
      (exampleStore UpdatePolicy.APPEND "string" [] [("k", "ab")])
      = some (some MergeError.unsupportedPolicy) ∧
    (receiverAfterMerge exampleLib
      (exampleStore UpdatePolicy.APPEND "string" [] [("k", "cd")])
      (exampleStore UpdatePolicy.APPEND "string" [] [("k", "ab")])).map
        (fun next => next.KV.get "k") = some (some "cd") := by
  decide

/-- C12 (amended): for two stores with the policy APPEND and the same value
type, `Merge` does not succeed: it returns the error of an unsupported policy
once the deleted prefixes of the receiver are applied to `previous`, and every
user key of the receiver keeps its bytes. -/
theorem C12_append_not_supported (lib : GoLib) (b previous : Builder)
    (hpol : b.updatePolicy = UpdatePolicy.APPEND)
    (hprevpol : previous.updatePolicy = UpdatePolicy.APPEND)
    (hvt : b.valueType = previous.valueType) :
    b.Merge lib previous =
      MergeResult.returned (b.clearMergeValues.writeMergeValues lib)
        (applyDeletedPrefixes b.DeletedPrefixes previous)
        (some MergeError.unsupportedPolicy) ∧
    ∀ k, k ≠ mergeValuesKey →
      (b.clearMergeValues.writeMergeValues lib).KV.get k = b.KV.get k := by
  refine ⟨?_, fun k hk => by
    rw [writeMergeValues_get lib _ k hk, clearMergeValues_get b k hk]⟩
  have hp : b.clearMergeValues.updatePolicy = previous.updatePolicy := by
    rw [hprevpol]; exact hpol
  have hv : b.clearMergeValues.valueType = previous.valueType := hvt
  have hbody : mergeBody lib b.clearMergeValues.updatePolicy b.clearMergeValues.valueType
      = Except.error MergeError.unsupportedPolicy := by
    have h1 : b.clearMergeValues.updatePolicy = UpdatePolicy.APPEND := hpol
    rw [h1]
    rfl
  unfold Builder.Merge
  dsimp only
  rw [if_neg (not_not.mpr hp), if_neg (not_not.mpr hv), hbody]
  rfl

/-- Witness of C12 (amended). -/
theorem C12_append_not_supported_witness :
    (exampleStore UpdatePolicy.APPEND "string" ["x"] [("k", "cd")]).Merge exampleLib
        (exampleStore UpdatePolicy.APPEND "string" [] [("k", "ab")]) =
      MergeResult.returned
        ((exampleStore UpdatePolicy.APPEND "string" ["x"]
          [("k", "cd")]).clearMergeValues.writeMergeValues exampleLib)
        (applyDeletedPrefixes ["x"] (exampleStore UpdatePolicy.APPEND "string" [] [("k", "ab")]))
        (some MergeError.unsupportedPolicy) :=
  (C12_append_not_supported exampleLib
    (exampleStore UpdatePolicy.APPEND "string" ["x"] [("k", "cd")])
    (exampleStore UpdatePolicy.APPEND "string" [] [("k", "ab")]) rfl rfl rfl).1

theorem merged_eq_mergedBuilder (lib : GoLib) (b previous r : Builder)
    (h : merged lib b previous = some r) : ∃ kv, r = mergedBuilder lib b previous kv := by
  unfold merged at h
  cases hm : b.Merge lib previous with
  | panicked => simp [hm] at h
  | returned next' prev' err =>
    cases err with
    | some e => simp [hm] at h
    | none =>
      simp only [hm, Option.some.injEq] at h
      subst h
      obtain ⟨hpol, hvt, body, hbody⟩ := compatible_of_returned lib b previous next' prev' hm
      rw [Merge_of_range lib b previous body hpol hvt hbody] at hm
      cases hr : rangeKV body (applyDeletedPrefixes b.DeletedPrefixes previous).KV.entries
          (b.KV.delete mergeValuesKey) with
      | none => simp [hr] at hm
      | some kv =>
        simp only [hr, MergeResult.returned.injEq] at hm
        exact ⟨kv, hm.1.symm⟩

/-- Counterexample to C13 as stated: `previous` is a full store over `[0, 5)` and
the receiver is a partial store over `[5, 10)`; the merge succeeds and leaves
the receiver with the range `[5, 10)`, whose start is not that of `previous`. -/
theorem C13_block_range_counterexample :
    (merged exampleLib
      (exampleStoreOver UpdatePolicy.REPLACE "string" true 5 10 [("k", "1")])
      (exampleStoreOver UpdatePolicy.REPLACE "string" false 0 5 [("j", "2")])).map
        (fun r => r.BlockRange) = some { StartBlock := 5, ExclusiveEndBlock := 10 } ∧
    (exampleStoreOver UpdatePolicy.REPLACE "string" false 0 5 [("j", "2")]).BlockRange.StartBlock
      = 0 := by
  decide

/-- C13 (amended): after a merge that returned without an error the exclusive
end block of the receiver is the one it had before the call; its start block
is that of `previous` when `previous` is in partial mode, and the one the
receiver had before the call otherwise. -/
theorem C13_block_range_after_merge (lib : GoLib) (b previous r : Builder)
    (h : merged lib b previous = some r) :
    r.BlockRange.ExclusiveEndBlock = b.BlockRange.ExclusiveEndBlock ∧
    r.BlockRange.StartBlock =
      if previous.partialMode then previous.BlockRange.StartBlock
      else b.BlockRange.StartBlock := by
  obtain ⟨kv, hr⟩ := merged_eq_mergedBuilder lib b previous r h
  subst hr
  have hb : (mergedBuilder lib b previous kv).BlockRange =
      if previous.partialMode then
        { b.BlockRange with StartBlock := previous.BlockRange.StartBlock }
      else b.BlockRange := by
    simp only [mergedBuilder, Builder.writeMergeValues, Builder.clearMergeValues,
      applyDeletedPrefixes_partialMode, applyDeletedPrefixes_BlockRange]
  rw [hb]
  cases previous.partialMode <;> simp

/-- Witness of C13 (amended): a partial store over `[5, 10)` merged over a
partial store over `[0, 5)`. -/
theorem C13_block_range_after_merge_witness :
    ((merged exampleLib
      (exampleStoreOver UpdatePolicy.REPLACE "string" true 5 10 [("k", "1")])
      (exampleStoreOver UpdatePolicy.REPLACE "string" true 0 5 [("j", "2")])).get
        (by decide)).BlockRange.ExclusiveEndBlock = 10 ∧
    ((merged exampleLib
      (exampleStoreOver UpdatePolicy.REPLACE "string" true 5 10 [("k", "1")])
      (exampleStoreOver UpdatePolicy.REPLACE "string" true 0 5 [("j", "2")])).get
        (by decide)).BlockRange.StartBlock = 0 :=
  C13_block_range_after_merge exampleLib
    (exampleStoreOver UpdatePolicy.REPLACE "string" true 5 10 [("k", "1")])
    (exampleStoreOver UpdatePolicy.REPLACE "string" true 0 5 [("j", "2")]) _
    (Option.some_get _).symm

/-- Counterexample to C14 as stated: the reserved key is a key of `previous`
that starts with the deleted prefix `__` of the receiver, and the receiver does
not hold it; after the merge the receiver holds it all the same, because the
merge values are written back on every return. -/
theorem C14_deleted_prefixes_counterexample :
    (exampleStore UpdatePolicy.REPLACE "string" [] [("__!__metadata", "old")]).KV.get
      "__!__metadata" = some "old" ∧
    coveredBy (exampleStore UpdatePolicy.REPLACE "string" ["__"] [("a", "1")]).DeletedPrefixes
      "__!__metadata" = true ∧
    (exampleStore UpdatePolicy.REPLACE "string" ["__"] [("a", "1")]).KV.get "__!__metadata"
      = none ∧
    (mergedValue exampleLib
      (exampleStore UpdatePolicy.REPLACE "string" ["__"] [("a", "1")])
      (exampleStore UpdatePolicy.REPLACE "string" [] [("__!__metadata", "old")])
      "__!__metadata").map Option.isSome = some true := by
  decide

/-- C14 (amended): for two stores with the same policy and the same value type,
whenever `Merge` returns, with or without an error, a user key of `previous`
that starts with one of the deleted prefixes of the receiver has been removed
from `previous`, and the receiver holds it afterwards only if it held it
before, with the bytes it held before. -/
theorem C14_deleted_prefixes_applied_first (lib : GoLib) (b previous next' prev' : Builder)
    (err : Option MergeError) (k v : String)
    (hpol : b.updatePolicy = previous.updatePolicy) (hvt : b.valueType = previous.valueType)
    (h : b.Merge lib previous = MergeResult.returned next' prev' err)
    (hk : k ≠ mergeValuesKey) (_hprev : previous.KV.get k = some v)
    (hcov : coveredBy b.DeletedPrefixes k = true) :
    next'.KV.get k = b.KV.get k ∧ prev'.KV.get k = none := by
  have hnone : (applyDeletedPrefixes b.DeletedPrefixes previous).KV.get k = none := by
    rw [applyDeletedPrefixes_get, hcov]
    rfl
  cases hb : mergeBody lib b.updatePolicy b.valueType with
  | ok body =>
    obtain ⟨_, hp, habs, _⟩ :=
      Merge_user_key lib b previous body hpol hvt hb next' prev' err h k hk
    exact ⟨habs hnone, by rw [hp, hnone]⟩
  | error e =>
    have hp' : b.clearMergeValues.updatePolicy = previous.updatePolicy := hpol
    have hv' : b.clearMergeValues.valueType = previous.valueType := hvt
    have hb' : mergeBody lib b.clearMergeValues.updatePolicy b.clearMergeValues.valueType
        = Except.error e := hb
    unfold Builder.Merge at h
    dsimp only at h
    rw [if_neg (not_not.mpr hp'), if_neg (not_not.mpr hv'), hb'] at h
    simp only [MergeResult.returned.injEq] at h
    obtain ⟨hn, hp, _⟩ := h
    subst hn hp
    exact ⟨by rw [writeMergeValues_get lib _ k hk, clearMergeValues_get b k hk], hnone⟩

/-- Witness of C14 (amended): the receiver deleted the prefix `a` and then wrote
`ab`; `previous` holds `ab` and `ac`. -/
theorem C14_deleted_prefixes_applied_first_witness :
    mergedValue exampleLib
      (exampleStore UpdatePolicy.SUM "int64" ["a"] [("ab", "1")])
      (exampleStore UpdatePolicy.SUM "int64" [] [("ab", "5"), ("ac", "7")]) "ac" = some none ∧
    ((merged exampleLib
      (exampleStore UpdatePolicy.SUM "int64" ["a"] [("ab", "1")])
      (exampleStore UpdatePolicy.SUM "int64" [] [("ab", "5"), ("ac", "7")])).get
        (by decide)).KV.get "ab" = some "1" :=
  ⟨by decide,
    (C14_deleted_prefixes_applied_first exampleLib
      (exampleStore UpdatePolicy.SUM "int64" ["a"] [("ab", "1")])
      (exampleStore UpdatePolicy.SUM "int64" [] [("ab", "5"), ("ac", "7")])
      ((merged exampleLib
        (exampleStore UpdatePolicy.SUM "int64" ["a"] [("ab", "1")])
        (exampleStore UpdatePolicy.SUM "int64" [] [("ab", "5"), ("ac", "7")])).get (by decide))
      (applyDeletedPrefixes ["a"]
        (exampleStore UpdatePolicy.SUM "int64" [] [("ab", "5"), ("ac", "7")]))
      none "ab" "5" rfl rfl rfl (by decide) (by decide) (by decide)).1⟩

theorem writeMergeValues_get_mergeValuesKey (lib : GoLib) (b : Builder) :
    (b.writeMergeValues lib).KV.get mergeValuesKey = some (lib.jsonMarshal b.mergeInfo) := by
  simp [Builder.writeMergeValues, Builder.mergeInfo, KV.get_set]

theorem writeMergeValues_mergeInfo (lib : GoLib) (b : Builder) :
    (b.writeMergeValues lib).mergeInfo = b.mergeInfo := rfl

/-- Text under the reserved key whenever `Merge` returns. -/
theorem mergeValues_after_Merge (lib : GoLib) (b previous next' prev' : Builder)
    (err : Option MergeError)
    (h : b.Merge lib previous = MergeResult.returned next' prev' err) :
    next'.KV.get mergeValuesKey = some (lib.jsonMarshal b.mergeInfo) := by
  unfold Builder.Merge at h
  dsimp only at h
  split at h
  · simp only [MergeResult.returned.injEq] at h
    obtain ⟨hn, _, _⟩ := h
    subst hn
    exact writeMergeValues_get_mergeValuesKey lib _
  · split at h
    · simp only [MergeResult.returned.injEq] at h
      obtain ⟨hn, _, _⟩ := h
      subst hn
      exact writeMergeValues_get_mergeValuesKey lib _
    · split at h
      · simp only [MergeResult.returned.injEq] at h
        obtain ⟨hn, _, _⟩ := h
        subst hn
        exact writeMergeValues_get_mergeValuesKey lib _
      · split at h
        · exact MergeResult.noConfusion h
        · simp only [MergeResult.returned.injEq] at h
          obtain ⟨hn, _, _⟩ := h
          subst hn
          exact writeMergeValues_get_mergeValuesKey lib _

/-- C15: whenever `Merge` returns, with or without an error, the receiver holds
under the reserved key the encoding by `json.Marshal` of its own store name,
update policy, value type, module hash and module start block, whatever was
stored under that key before; these five are the ones it had before the call. -/
theorem C15_merge_values_rewritten (lib : GoLib) (b previous next' prev' : Builder)
    (err : Option MergeError)
    (h : b.Merge lib previous = MergeResult.returned next' prev' err) :
    next'.KV.get mergeValuesKey = some (lib.jsonMarshal next'.mergeInfo) ∧
    next'.mergeInfo = b.mergeInfo := by
  unfold Builder.Merge at h
  dsimp only at h
  split at h
  · simp only [MergeResult.returned.injEq] at h
    obtain ⟨hn, _, _⟩ := h
    subst hn
    exact ⟨writeMergeValues_get_mergeValuesKey lib _, rfl⟩
  · split at h
    · simp only [MergeResult.returned.injEq] at h
      obtain ⟨hn, _, _⟩ := h
      subst hn
      exact ⟨writeMergeValues_get_mergeValuesKey lib _, rfl⟩
    · split at h
      · simp only [MergeResult.returned.injEq] at h
        obtain ⟨hn, _, _⟩ := h
        subst hn
        exact ⟨writeMergeValues_get_mergeValuesKey lib _, rfl⟩
      · split at h
        · exact MergeResult.noConfusion h
        · simp only [MergeResult.returned.injEq] at h
          obtain ⟨hn, _, _⟩ := h
          subst hn
          exact ⟨writeMergeValues_get_mergeValuesKey lib _, rfl⟩

/-- Witness of C15: a successful merge by a receiver that held the text `old`
under the reserved key. -/
theorem C15_merge_values_rewritten_witness :
    (exampleStore UpdatePolicy.SUM "int64" [] [("k", "1"), ("__!__metadata", "old")]).KV.get
      mergeValuesKey = some "old" ∧
    (mergedBuilder exampleLib
      (exampleStore UpdatePolicy.SUM "int64" [] [("k", "1"), ("__!__metadata", "old")])
      (exampleStore UpdatePolicy.SUM "int64" [] [("k", "2")])
      (KV.ofList [("k", "3")])).KV.get mergeValuesKey =
        some (exampleLib.jsonMarshal
          (exampleStore UpdatePolicy.SUM "int64" [] [("k", "1")]).mergeInfo) :=
  ⟨by decide,
    (C15_merge_values_rewritten exampleLib
      (exampleStore UpdatePolicy.SUM "int64" [] [("k", "1"), ("__!__metadata", "old")])
      (exampleStore UpdatePolicy.SUM "int64" [] [("k", "2")])
      (mergedBuilder exampleLib
        (exampleStore UpdatePolicy.SUM "int64" [] [("k", "1"), ("__!__metadata", "old")])
        (exampleStore UpdatePolicy.SUM "int64" [] [("k", "2")])
        (KV.ofList [("k", "3")]))
      (exampleStore UpdatePolicy.SUM "int64" [] [("k", "2")]) none rfl).1⟩

/-- C16: evaluation of `Merge` under MIN on `bigInt`, on the stores of the seed
scenario S3. The partial store with `x = 10` merged over the empty full store
holds `x = 10` and its merge values; when the partial store with `x = 3` is
merged over that result, the loop reaches the reserved key of `previous`,
`strToBigInt` panics on its text and the call panics. With the entry removed
from `previous` the same call returns and leaves `x = 3`. -/
theorem C16_previous_merge_values_not_stripped :
    (merged exampleLib
      (exampleStore UpdatePolicy.MIN "bigInt" [] [("x", "10")])
      (exampleStore UpdatePolicy.MIN "bigInt" [] [])).map
        (fun r => (r.KV.get "x", (r.KV.get mergeValuesKey).isSome)) = some (some "10", true) ∧
    (merged exampleLib
      (exampleStore UpdatePolicy.MIN "bigInt" [] [("x", "10")])
      (exampleStore UpdatePolicy.MIN "bigInt" [] [])).map
        (fun r => mergeError exampleLib
          (exampleStore UpdatePolicy.MIN "bigInt" [] [("x", "3")]) r) = some none ∧
    (merged exampleLib
      (exampleStore UpdatePolicy.MIN "bigInt" [] [("x", "10")])
      (exampleStore UpdatePolicy.MIN "bigInt" [] [])).map
        (fun r => mergedValue exampleLib
          (exampleStore UpdatePolicy.MIN "bigInt" [] [("x", "3")]) r.clearMergeValues "x")
      = some (some (some "3")) := by
  decide

/-- The text that `json.Marshal` writes for a struct starts with an opening
brace, so `strToBigInt` panics on it whatever the fields are. -/
theorem strToBigInt_of_json_object (rest : List Char) :
    strToBigInt (String.mk ('\x7b' :: rest)) = none := by
  simp [strToBigInt, ParseInt, parseUnsigned, parseDigits, digitVal]

/-- When `Merge` returns without an error both with `previous` as it is and with
`previous` stripped of the entry under the reserved key, the receiver holds the
same bytes under every key in the two cases. -/
theorem merged_values_of_stripped_previous (lib : GoLib) (b previous : Builder)
    (h1 : (mergedKV lib b previous).isSome = true)
    (h2 : (mergedKV lib b previous.clearMergeValues).isSome = true) (k : String) :
    mergedValue lib b previous k = mergedValue lib b previous.clearMergeValues k := by
  by_cases hk : k = mergeValuesKey
  · subst hk
    obtain ⟨n1, p1, e1⟩ := returned_of_mergedKV lib b previous h1
    obtain ⟨n2, p2, e2⟩ := returned_of_mergedKV lib b previous.clearMergeValues h2
    have c1 := mergeValues_after_Merge lib b previous n1 p1 none e1
    have c2 := mergeValues_after_Merge lib b previous.clearMergeValues n2 p2 none e2
    simp only [mergedValue, mergedKV_of_returned lib b _ _ _ e1,
      mergedKV_of_returned lib b _ _ _ e2, Option.map_some', c1, c2]
  · obtain ⟨_, _, body1, hbody1, hkeys1⟩ := mergedValue_of_returned lib b previous h1
    obtain ⟨_, _, body2, hbody2, hkeys2⟩ :=
      mergedValue_of_returned lib b previous.clearMergeValues h2
    rw [hbody1] at hbody2
    cases hbody2
    have hsame : (applyDeletedPrefixes b.DeletedPrefixes previous.clearMergeValues).KV.get k =
        (applyDeletedPrefixes b.DeletedPrefixes previous).KV.get k := by
      rw [applyDeletedPrefixes_get, applyDeletedPrefixes_get, clearMergeValues_get previous k hk]
    cases hprev : (applyDeletedPrefixes b.DeletedPrefixes previous).KV.get k with
    | none =>
      rw [(hkeys1 k hk).1 hprev, (hkeys2 k hk).1 (hsame.trans hprev)]
    | some v =>
      obtain ⟨n1, hn1, _, hm1⟩ := (hkeys1 k hk).2 v hprev
      obtain ⟨n2, hn2, _, hm2⟩ := (hkeys2 k hk).2 v (hsame.trans hprev)
      rw [hn1] at hn2
      cases hn2
      rw [hm1, hm2]

end State

namespace Store

/-! ## Ordinals and `Reset` -/

/-- C17: `bumpOrdinal` panics exactly when the given ordinal is below
`lastOrdinal`; the ordinal `lastOrdinal` itself is accepted; an accepted call
sets `lastOrdinal` to the given ordinal and leaves `kv`, the deltas and the
configuration as they were; a call that panics leaves the store as it was. -/
theorem C17_bumpOrdinal_non_decreasing (b : baseStore) (ord : Nat) :
    ((∃ s, b.bumpOrdinal ord = Outcome.panicked s) ↔ ord < b.lastOrdinal) ∧
    ((∃ s, b.bumpOrdinal ord = Outcome.done s) ↔ b.lastOrdinal ≤ ord) ∧
    b.bumpOrdinal b.lastOrdinal = Outcome.done b ∧
    (∀ s, b.bumpOrdinal ord = Outcome.done s →
      s.lastOrdinal = ord ∧ s.kv = b.kv ∧ s.deltas = b.deltas ∧ s.toConfig = b.toConfig) ∧
    (∀ s, b.bumpOrdinal ord = Outcome.panicked s → s = b) := by
  unfold baseStore.bumpOrdinal
  refine ⟨?_, ?_, ?_, ?_, ?_⟩
  · by_cases h : b.lastOrdinal > ord
    · simp [h]
    · simp [h]
  · by_cases h : b.lastOrdinal > ord
    · simp [h]
    · simp [h]
      omega
  · simp
  · intro s hs
    by_cases h : b.lastOrdinal > ord
    · simp [h] at hs
    · simp only [h, if_false, Outcome.done.injEq] at hs
      subst hs
      exact ⟨rfl, rfl, rfl, rfl⟩
  · intro s hs
    by_cases h : b.lastOrdinal > ord
    · simp only [h, if_true, Outcome.panicked.injEq] at hs
      exact hs.symm
    · simp [h] at hs

theorem greatest_append_singleton (l : List Nat) (x : Nat) :
    greatest (l ++ [x]) = max (greatest l) x := by
  induction l with
  | nil => simp [greatest]
  | cons a rest ih =>
    have h : greatest (a :: rest ++ [x]) = max a (greatest (rest ++ [x])) := rfl
    have h2 : greatest (a :: rest) = max a (greatest rest) := rfl
    rw [h, ih, h2, max_assoc]

theorem le_greatest (l : List Nat) (x : Nat) (hx : x ∈ l) : x ≤ greatest l := by
  induction l with
  | nil => simp at hx
  | cons a rest ih =>
    have h2 : greatest (a :: rest) = max a (greatest rest) := rfl
    rw [h2]
    rcases List.mem_cons.mp hx with h | h
    · subst h
      exact le_max_left _ _
    · exact le_trans (ih h) (le_max_right _ _)

theorem Run.step_monotone (r : Run) (c : Call) (h : r.Monotone) : (r.step c).Monotone := by
  obtain ⟨hseg, hlast⟩ := h
  cases c with
  | Reset =>
    refine ⟨?_, rfl⟩
    intro seg hmem
    simp only [Run.step, List.mem_cons] at hmem
    rcases hmem with h | h
    · subst h
      exact List.Pairwise.nil
    · exact hseg seg (List.mem_cons.mpr h)
  | bumpOrdinal ord =>
    by_cases hgt : r.store.lastOrdinal > ord
    · have hstep : r.step (Call.bumpOrdinal ord) = r := by
        simp [Run.step, baseStore.bumpOrdinal, hgt]
      rw [hstep]
      exact ⟨hseg, hlast⟩
    · have hstep : r.step (Call.bumpOrdinal ord) =
          { r with store := { r.store with lastOrdinal := ord },
                   accepted := r.accepted ++ [ord] } := by
        simp [Run.step, baseStore.bumpOrdinal, hgt]
      rw [hstep]
      refine ⟨?_, ?_⟩
      · intro seg hmem
        simp only [List.mem_cons] at hmem
        rcases hmem with h | h
        · subst h
          rw [List.pairwise_append]
          refine ⟨hseg _ (List.mem_cons_self _ _), List.pairwise_singleton _ _, ?_⟩
          intro a ha x hx
          simp only [List.mem_singleton] at hx
          subst hx
          have := le_greatest r.accepted a ha
          omega
        · exact hseg seg (List.mem_cons.mpr (Or.inr h))
      · show ord = greatest (r.accepted ++ [ord])
        rw [greatest_append_singleton, ← hlast]
        omega

theorem runCalls_monotone (r : Run) (calls : List Call) (h : r.Monotone) :
    (calls.foldl Run.step r).Monotone := by
  induction calls generalizing r with
  | nil => exact h
  | cons c rest ih => exact ih (r.step c) (Run.step_monotone r c h)

/-- C18: for every sequence of `bumpOrdinal` and `Reset` calls on a store that
starts with `lastOrdinal = 0`, the ordinals accepted between two consecutive
calls of `Reset` (and before the first, and since the last) never decrease,
and `lastOrdinal` is the greatest ordinal accepted since the last `Reset`, or
`0` when there is none. -/
theorem C18_ordinals_monotone (b : baseStore) (calls : List Call) (h0 : b.lastOrdinal = 0) :
    (∀ seg ∈ (runCalls b calls).accepted :: (runCalls b calls).earlier,
      seg.Pairwise (· ≤ ·)) ∧
    (runCalls b calls).store.lastOrdinal = greatest (runCalls b calls).accepted := by
  apply runCalls_monotone
  refine ⟨?_, h0⟩
  intro seg hmem
  simp only [List.mem_cons, List.mem_singleton, List.not_mem_nil, or_false] at hmem
  subst hmem
  exact List.Pairwise.nil

/-- Witness of C18: on a fresh clone the ordinals 1, 1, 3 are accepted, 2 is
refused, and after a `Reset` the ordinal 0 is accepted. -/
theorem C18_ordinals_monotone_witness :
    (∀ seg ∈ (runCalls (exampleFullKV []).Clone.tobaseStore
        [Call.bumpOrdinal 1, Call.bumpOrdinal 1, Call.bumpOrdinal 3, Call.bumpOrdinal 2,
          Call.Reset, Call.bumpOrdinal 0]).accepted ::
        (runCalls (exampleFullKV []).Clone.tobaseStore
          [Call.bumpOrdinal 1, Call.bumpOrdinal 1, Call.bumpOrdinal 3, Call.bumpOrdinal 2,
            Call.Reset, Call.bumpOrdinal 0]).earlier,
      seg.Pairwise (· ≤ ·)) ∧
    (runCalls (exampleFullKV []).Clone.tobaseStore
        [Call.bumpOrdinal 1, Call.bumpOrdinal 1, Call.bumpOrdinal 3, Call.bumpOrdinal 2,
          Call.Reset, Call.bumpOrdinal 0]).store.lastOrdinal =
      greatest (runCalls (exampleFullKV []).Clone.tobaseStore
        [Call.bumpOrdinal 1, Call.bumpOrdinal 1, Call.bumpOrdinal 3, Call.bumpOrdinal 2,
          Call.Reset, Call.bumpOrdinal 0]).accepted :=
  C18_ordinals_monotone (exampleFullKV []).Clone.tobaseStore
    [Call.bumpOrdinal 1, Call.bumpOrdinal 1, Call.bumpOrdinal 3, Call.bumpOrdinal 2,
      Call.Reset, Call.bumpOrdinal 0] rfl

/-- C19: `Reset` of `FullKV` does to the embedded store what `Reset` of
`baseStore` does; it drops the deltas, sets `lastOrdinal` to `0`, leaves `kv`
and the configuration as they were, and `bumpOrdinal` accepts every ordinal
right after it. -/
theorem C19_reset_frame (s : FullKV) (b : baseStore) (ord : Nat) :
    s.Reset.tobaseStore = s.tobaseStore.Reset ∧
    b.Reset.deltas = [] ∧ b.Reset.lastOrdinal = 0 ∧
    b.Reset.kv = b.kv ∧ b.Reset.toConfig = b.toConfig ∧
    b.Reset.bumpOrdinal ord = Outcome.done { b.Reset with lastOrdinal := ord } := by
  refine ⟨rfl, rfl, rfl, rfl, rfl, ?_⟩
  simp [baseStore.bumpOrdinal, baseStore.Reset]

/-! ## Snapshots -/

theorem lookupBytes_eq_none (k : Bytes) (l : List (Bytes × Bytes))
    (h : k ∉ l.map Prod.fst) : lookupBytes k l = none := by
  induction l with
  | nil => rfl
  | cons e rest ih =>
    obtain ⟨k', v⟩ := e
    simp only [List.map_cons, List.mem_cons, not_or] at h
    have hne : ¬ k' = k := fun hk => h.1 hk.symm
    simp [lookupBytes, hne, ih h.2]

theorem lookupBytes_of_mem (k v : Bytes) (l : List (Bytes × Bytes))
    (hnodup : (l.map Prod.fst).Nodup) (h : (k, v) ∈ l) : lookupBytes k l = some v := by
  induction l with
  | nil => simp at h
  | cons e rest ih =>
    obtain ⟨k', v'⟩ := e
    simp only [List.map_cons, List.nodup_cons] at hnodup
    rcases List.mem_cons.mp h with heq | hmem
    · cases heq
      simp [lookupBytes]
    · have hne : ¬ k' = k := by
        intro hk
        subst hk
        exact hnodup.1 (List.mem_map.mpr ⟨(k', v), hmem, rfl⟩)
      simp [lookupBytes, hne, ih hnodup.2 hmem]

theorem mem_of_lookupBytes (k v : Bytes) (l : List (Bytes × Bytes))
    (h : lookupBytes k l = some v) : (k, v) ∈ l := by
  induction l with
  | nil => simp [lookupBytes] at h
  | cons e rest ih =>
    obtain ⟨k', v'⟩ := e
    by_cases hk : k' = k
    · subst hk
      simp only [lookupBytes, if_true, Option.some.injEq] at h
      subst h
      exact List.mem_cons_self _ _
    · simp only [lookupBytes, hk, if_false] at h
      exact List.mem_cons_of_mem _ (ih h)

/-- The value under a key does not depend on the order of the pairs. -/
theorem lookupBytes_perm (k : Bytes) (l l' : List (Bytes × Bytes)) (hperm : l.Perm l')
    (hnodup : (l.map Prod.fst).Nodup) : lookupBytes k l' = lookupBytes k l := by
  have hnodup' : (l'.map Prod.fst).Nodup := (hperm.map Prod.fst).nodup_iff.mp hnodup
  cases hl : lookupBytes k l with
  | some v =>
    exact lookupBytes_of_mem k v l' hnodup' (hperm.mem_iff.mp (mem_of_lookupBytes k v l hl))
  | none =>
    cases hl' : lookupBytes k l' with
    | none => rfl
    | some v =>
      have hmem := hperm.mem_iff.mpr (mem_of_lookupBytes k v l' hl')
      rw [lookupBytes_of_mem k v l hnodup hmem] at hl
      exact Option.noConfusion hl

theorem lookupBytes_filter (p : Bytes → Bool) (k : Bytes) (l : List (Bytes × Bytes)) :
    lookupBytes k (l.filter (fun e => p e.1)) = if p k then lookupBytes k l else none := by
  induction l with
  | nil => simp [lookupBytes]
  | cons e rest ih =>
    obtain ⟨k', v⟩ := e
    by_cases hp : p k' = true
    · by_cases hk : k' = k
      · subst hk; simp [List.filter_cons, hp, lookupBytes]
      · simp [List.filter_cons, hp, lookupBytes, hk, ih]
    · by_cases hk : k' = k
      · subst hk; simp [List.filter_cons, hp, lookupBytes, ih]
      · simp [List.filter_cons, hp, lookupBytes, hk, ih]

theorem get_set_bytes (m : KV) (k v k' : Bytes) :
    (m.set k v).get k' = if k' = k then some v else m.get k' := by
  by_cases hk : k' = k
  · subst hk
    simp [KV.get, KV.set, lookupBytes]
  · have hk2 : ¬ k = k' := fun h => hk h.symm
    have h := lookupBytes_filter (fun x => decide (x ≠ k)) k' m.entries
    simp only [KV.get, KV.set, lookupBytes, hk2, if_false, hk]
    rw [h]
    simp [hk]

theorem foldl_set_get (l : List (Bytes × Bytes)) (hnodup : (l.map Prod.fst).Nodup) (m : KV)
    (k : Bytes) :
    (l.foldl (fun m e => m.set e.1 e.2) m).get k =
      match lookupBytes k l with
      | some v => some v
      | none => m.get k := by
  induction l generalizing m with
  | nil => rfl
  | cons e rest ih =>
    obtain ⟨k0, v0⟩ := e
    simp only [List.map_cons, List.nodup_cons] at hnodup
    rw [List.foldl_cons, ih hnodup.2]
    by_cases hk : k0 = k
    · subst hk
      simp [lookupBytes, lookupBytes_eq_none k0 rest hnodup.1, get_set_bytes]
    · have hk2 : ¬ k = k0 := fun h => hk h.symm
      simp only [lookupBytes, hk, if_false]
      cases lookupBytes k rest with
      | some v => rfl
      | none => simp [get_set_bytes, hk2]

theorem ofList_get (l : List (Bytes × Bytes)) (hnodup : (l.map Prod.fst).Nodup) (k : Bytes) :
    (KV.ofList l).get k = lookupBytes k l := by
  unfold KV.ofList
  rw [foldl_set_get l hnodup]
  cases lookupBytes k l <;> rfl

theorem coerceFrom_of_valid (skip : Nat) (s : Bytes) (h : validFrom skip s = true) :
    coerceFrom skip s = s := by
  induction s generalizing skip with
  | nil => cases skip <;> rfl
  | cons b rest ih =>
    cases skip with
    | succ n =>
      simp only [validFrom] at h
      simp only [coerceFrom, ih n h]
    | zero =>
      simp only [validFrom, Bool.and_eq_true, decide_eq_true_eq] at h
      simp only [coerceFrom, h.1, if_false, ih _ h.2]

theorem coerceUTF8_of_valid (s : Bytes) (h : validUTF8 s = true) : coerceUTF8 s = s :=
  coerceFrom_of_valid 0 s h

theorem map_coerce_of_valid (l : List (Bytes × Bytes))
    (h : ∀ e ∈ l, validUTF8 e.1 = true) :
    l.map (fun e => (coerceUTF8 e.1, e.2)) = l := by
  induction l with
  | nil => rfl
  | cons e rest ih =>
    have h1 := coerceUTF8_of_valid e.1 (h e (List.mem_cons_self _ _))
    rw [List.map_cons, h1, ih (fun x hx => h x (List.mem_cons_of_mem _ hx))]

/-- What `json.Unmarshal` reads back from what `json.MarshalIndent` wrote for a
map whose keys are all valid UTF-8: a map with the same value under every key. -/
theorem jsonUnmarshal_jsonMarshalIndent (kv : KV)
    (hvalid : ∀ e ∈ kv.entries, validUTF8 e.1 = true) :
    ∃ kv', jsonUnmarshal (jsonMarshalIndent kv) = some kv' ∧ ∀ k, kv'.get k = kv.get k := by
  have hperm := List.perm_insertionSort (fun a b : Bytes × Bytes => bytesLe a.1 b.1 = true)
    kv.entries
  have hv : ∀ e ∈ kv.entries.insertionSort (fun a b => bytesLe a.1 b.1 = true),
      validUTF8 e.1 = true := fun e he => hvalid e (hperm.mem_iff.mp he)
  have hnodup : ((kv.entries.insertionSort (fun a b => bytesLe a.1 b.1 = true)).map
      Prod.fst).Nodup := (hperm.map Prod.fst).nodup_iff.mpr kv.nodup
  refine ⟨_, rfl, ?_⟩
  intro k
  rw [map_coerce_of_valid _ hv, ofList_get _ hnodup]
  exact lookupBytes_perm k kv.entries _ hperm.symm kv.nodup

theorem loadStore_saveStore (store store' : ObjectStore) (fileName : String)
    (content : FileContent) (h : saveStore store fileName content = some store') :
    loadStore store' fileName = some content := by
  unfold saveStore at h
  by_cases ha : store.available = true
  · simp only [ha, if_true, Option.some.injEq] at h
    subst h
    simp [loadStore, ha]
  · simp [ha] at h

/-- Counterexample to C20 as stated: the store holds the value `01` under the
key made of the single byte `FF`, which is not valid UTF-8. `Save(10)` succeeds,
and after `Load(10)` on the same store the key `FF` is absent: the value is
under the bytes `EF BF BD` of U+FFFD instead. -/
theorem C20_round_trip_counterexample :
    (exampleFullKV [([0xFF], [0x01])]).kv.get [0xFF] = some [0x01] ∧
    ((exampleFullKV [([0xFF], [0x01])]).Save exampleFileName 10).2 =
      Except.ok { StartBlock := 0, ExclusiveEndBlock := 10 } ∧
    ((((exampleFullKV [([0xFF], [0x01])]).Save exampleFileName 10).1).Load
      exampleFileName 10).2 = none ∧
    ((((exampleFullKV [([0xFF], [0x01])]).Save exampleFileName 10).1).Load
      exampleFileName 10).1.kv.get [0xFF] = none ∧
    ((((exampleFullKV [([0xFF], [0x01])]).Save exampleFileName 10).1).Load
      exampleFileName 10).1.kv.get [0xEF, 0xBF, 0xBD] = some [0x01] :=
  ⟨by decide, rfl, by decide, by decide, by decide⟩

/-- C20 (amended): for every `FullKV` store whose keys are all valid UTF-8 and
every exclusive end block `e`, when `Save(e)` succeeds, `Load(e)` on a store with
the same module initial block and the object store as `Save` left it succeeds
and leaves a `kv` with the same value under every key as the saved `kv`,
whatever the bytes of the values. -/
theorem C20_snapshot_round_trip (fullStateFileName : State.BlockRange → String)
    (s t : FullKV) (e : Nat) (brange : State.BlockRange)
    (hvalid : ∀ entry ∈ s.kv.entries, validUTF8 entry.1 = true)
    (hsave : (s.Save fullStateFileName e).2 = Except.ok brange)
    (hinit : t.moduleInitialBlock = s.moduleInitialBlock)
    (hstore : t.store = (s.Save fullStateFileName e).1.store) :
    (t.Load fullStateFileName e).2 = none ∧
    ∀ k, (t.Load fullStateFileName e).1.kv.get k = s.kv.get k := by
  obtain ⟨kv', hkv', hget⟩ := jsonUnmarshal_jsonMarshalIndent s.kv hvalid
  have hname : t.storageFilename fullStateFileName e = s.storageFilename fullStateFileName e := by
    simp [FullKV.storageFilename, hinit]
  cases hs : saveStore s.store (s.storageFilename fullStateFileName e) (jsonMarshalIndent s.kv) with
  | none => simp [FullKV.Save, hs] at hsave
  | some store' =>
    have hst : t.store = store' := by
      rw [hstore]
      simp [FullKV.Save, hs]
    have hload := loadStore_saveStore s.store store' _ _ hs
    have hl : t.Load fullStateFileName e = ({ t with kv := kv' }, none) := by
      simp only [FullKV.Load, hname, hst, hload, hkv']
    rw [hl]
    exact ⟨rfl, hget⟩

/-- Witness of C20 (amended): a store with the keys `a` and `é` and values with
arbitrary bytes. -/
theorem C20_snapshot_round_trip_witness :
    (((exampleFullKV [([0x61], [0xFF, 0x00]), ([0xC3, 0xA9], [])]).Save
      exampleFileName 10).1.Load exampleFileName 10).2 = none ∧
    ∀ k, (((exampleFullKV [([0x61], [0xFF, 0x00]), ([0xC3, 0xA9], [])]).Save
      exampleFileName 10).1.Load exampleFileName 10).1.kv.get k =
        (exampleFullKV [([0x61], [0xFF, 0x00]), ([0xC3, 0xA9], [])]).kv.get k :=
  C20_snapshot_round_trip exampleFileName
    (exampleFullKV [([0x61], [0xFF, 0x00]), ([0xC3, 0xA9], [])])
    ((exampleFullKV [([0x61], [0xFF, 0x00]), ([0xC3, 0xA9], [])]).Save exampleFileName 10).1
    10 { StartBlock := 0, ExclusiveEndBlock := 10 }
    (by decide) rfl rfl rfl

end Store

namespace State

/-! ## What a merge leaves alone -/

/-- C24: after a merge that returned without an error the receiver is in partial
mode exactly when `previous` is, and its exclusive end block, store name,
update policy, value type, module hash and module start block are those it had
before the call. -/
theorem C24_merge_propagates_partial_mode (lib : GoLib) (b previous r : Builder)
    (h : merged lib b previous = some r) :
    r.partialMode = previous.partialMode ∧
    r.BlockRange.ExclusiveEndBlock = b.BlockRange.ExclusiveEndBlock ∧
    r.Name = b.Name ∧ r.updatePolicy = b.updatePolicy ∧ r.valueType = b.valueType ∧
    r.ModuleHash = b.ModuleHash ∧ r.ModuleStartBlock = b.ModuleStartBlock := by
  obtain ⟨kv, hr⟩ := merged_eq_mergedBuilder lib b previous r h
  subst hr
  refine ⟨?_, ?_, rfl, rfl, rfl, rfl, rfl⟩
  · exact applyDeletedPrefixes_partialMode b.DeletedPrefixes previous
  · have hb : (mergedBuilder lib b previous kv).BlockRange =
        if previous.partialMode then
          { b.BlockRange with StartBlock := previous.BlockRange.StartBlock }
        else b.BlockRange := by
      simp only [mergedBuilder, Builder.writeMergeValues, Builder.clearMergeValues,
        applyDeletedPrefixes_partialMode, applyDeletedPrefixes_BlockRange]
    rw [hb]
    cases previous.partialMode <;> rfl

/-- Witness of C24: a partial store over `[5, 10)` merged over a full store over
`[0, 5)` is a full store that still ends at block 10. -/
theorem C24_merge_propagates_partial_mode_witness :
    ((merged exampleLib
      (exampleStoreOver UpdatePolicy.SUM "int64" true 5 10 [("k", "1")])
      (exampleStoreOver UpdatePolicy.SUM "int64" false 0 5 [("k", "2")])).get
        (by decide)).partialMode = false ∧
    ((merged exampleLib
      (exampleStoreOver UpdatePolicy.SUM "int64" true 5 10 [("k", "1")])
      (exampleStoreOver UpdatePolicy.SUM "int64" false 0 5 [("k", "2")])).get
        (by decide)).BlockRange.ExclusiveEndBlock = 10 :=
  ⟨(C24_merge_propagates_partial_mode exampleLib
      (exampleStoreOver UpdatePolicy.SUM "int64" true 5 10 [("k", "1")])
      (exampleStoreOver UpdatePolicy.SUM "int64" false 0 5 [("k", "2")]) _
      (Option.some_get _).symm).1,
    (C24_merge_propagates_partial_mode exampleLib
      (exampleStoreOver UpdatePolicy.SUM "int64" true 5 10 [("k", "1")])
      (exampleStoreOver UpdatePolicy.SUM "int64" false 0 5 [("k", "2")]) _
      (Option.some_get _).symm).2.1⟩

end State

namespace Store

/-! ## Failures of `Load` -/

theorem mem_of_foldl_set_get (l : List (Bytes × Bytes)) (m : KV) (k v : Bytes)
    (h : (l.foldl (fun m e => m.set e.1 e.2) m).get k = some v) :
    (k, v) ∈ l ∨ m.get k = some v := by
  induction l generalizing m with
  | nil => exact Or.inr h
  | cons e rest ih =>
    rw [List.foldl_cons] at h
    rcases ih (m.set e.1 e.2) h with hmem | hget
    · exact Or.inl (List.mem_cons_of_mem _ hmem)
    · rw [get_set_bytes] at hget
      by_cases hk : k = e.1
      · simp only [hk, if_true, Option.some.injEq] at hget
        subst hget
        subst hk
        exact Or.inl (List.mem_cons_self _ _)
      · simp only [hk, if_false] at hget
        exact Or.inr hget

theorem mem_of_ofList_get (l : List (Bytes × Bytes)) (k v : Bytes)
    (h : (KV.ofList l).get k = some v) : (k, v) ∈ l := by
  rcases mem_of_foldl_set_get l KV.empty k v h with hmem | hget
  · exact hmem
  · exact Option.noConfusion hget

theorem loadStore_of_missing (store : ObjectStore) (fileName : String)
    (h : ∀ content, (fileName, content) ∉ store.files) : loadStore store fileName = none := by
  unfold loadStore
  split
  · cases hf : store.files.find? (fun f => decide (f.1 = fileName)) with
    | none => rfl
    | some f =>
      have hmem := List.mem_of_find?_eq_some hf
      have hname := List.find?_some hf
      simp only [decide_eq_true_eq] at hname
      obtain ⟨n, c⟩ := f
      simp only at hname
      subst hname
      exact absurd hmem (h c)
  · rfl

/-- C21: `Load` returns an error when the object store has no file of the name
of the snapshot, and when the content of the file does not decode; whenever it
returns an error the store is left exactly as it was, `kv`, deltas and
`lastOrdinal` included; it returns without an error exactly when the file is
there and decodes, and then the store is the one before the call with `kv`
replaced by the map decoded from the file and nothing else, so that each key of
`kv` is a member of the file, and the deltas and `lastOrdinal` are as before. -/
theorem C21_load_errors_and_replacement (fullStateFileName : State.BlockRange → String)
    (s : FullKV) (e : Nat) :
    ((∀ content, (s.storageFilename fullStateFileName e, content) ∉ s.store.files) →
      (s.Load fullStateFileName e).2 = some StoreError.loadFullStore) ∧
    (∀ raw, loadStore s.store (s.storageFilename fullStateFileName e)
        = some (FileContent.undecodable raw) →
      (s.Load fullStateFileName e).2 = some StoreError.unmarshalData) ∧
    ((s.Load fullStateFileName e).2 ≠ none → (s.Load fullStateFileName e).1 = s) ∧
    ((s.Load fullStateFileName e).2 = none →
      ∃ members, loadStore s.store (s.storageFilename fullStateFileName e)
          = some (FileContent.jsonObject members) ∧
        (s.Load fullStateFileName e).1.kv = KV.ofList members ∧
        (∀ k v, (s.Load fullStateFileName e).1.kv.get k = some v → (k, v) ∈ members) ∧
        (s.Load fullStateFileName e).1.deltas = s.deltas ∧
        (s.Load fullStateFileName e).1.lastOrdinal = s.lastOrdinal ∧
        (s.Load fullStateFileName e).1.toConfig = s.toConfig) ∧
    (∀ members, loadStore s.store (s.storageFilename fullStateFileName e)
        = some (FileContent.jsonObject members) →
      s.Load fullStateFileName e = ({ s with kv := KV.ofList members }, none)) ∧
    (∀ content, s.store.available = true →
      (s.store.files.find? (fun f => decide (f.1 = s.storageFilename fullStateFileName e)))
        = some (s.storageFilename fullStateFileName e, content) →
      loadStore s.store (s.storageFilename fullStateFileName e) = some content) := by
  refine ⟨?_, ?_, ?_, ?_, ?_, ?_⟩
  · intro hmissing
    simp [FullKV.Load, loadStore_of_missing s.store _ hmissing]
  · intro raw hraw
    simp [FullKV.Load, hraw, jsonUnmarshal]
  · intro herr
    unfold FullKV.Load at herr ⊢
    dsimp only at herr ⊢
    cases hl : loadStore s.store (s.storageFilename fullStateFileName e) with
    | none => rfl
    | some data =>
      cases data with
      | undecodable raw => rfl
      | jsonObject members => simp [hl, jsonUnmarshal] at herr
  · intro hok
    unfold FullKV.Load at hok ⊢
    dsimp only at hok ⊢
    cases hl : loadStore s.store (s.storageFilename fullStateFileName e) with
    | none => simp [hl] at hok
    | some data =>
      cases data with
      | undecodable raw => simp [hl, jsonUnmarshal] at hok
      | jsonObject members =>
        refine ⟨members, rfl, rfl, ?_, rfl, rfl, rfl⟩
        intro k v hkv
        exact mem_of_ofList_get members k v hkv
  · intro members hl
    simp [FullKV.Load, hl, jsonUnmarshal]
  · intro content havail hfind
    simp [loadStore, havail, hfind]

/-- Witness of C21: a store that holds the key `6F` loads the snapshot of block
10 that a store holding the key `6E` alone has saved; `Load` returns without an
error and `kv` is the decoded map, in which `6E` is present and `6F` is not. -/
theorem C21_load_errors_and_replacement_witness :
    ({ exampleFullKV [([0x6F], [0x01])] with
        store := ((exampleFullKV [([0x6E], [0x02])]).Save exampleFileName 10).1.store }
      : FullKV).Load exampleFileName 10 =
      ({ exampleFullKV [([0x6F], [0x01])] with
          store := ((exampleFullKV [([0x6E], [0x02])]).Save exampleFileName 10).1.store
          kv := KV.ofList [([0x6E], [0x02])] }, none) ∧
    (KV.ofList [([0x6E], [0x02])]).get [0x6E] = some [0x02] ∧
    (KV.ofList [([0x6E], [0x02])]).get [0x6F] = none :=
  ⟨(C21_load_errors_and_replacement exampleFileName
      ({ exampleFullKV [([0x6F], [0x01])] with
        store := ((exampleFullKV [([0x6E], [0x02])]).Save exampleFileName 10).1.store }
        : FullKV) 10).2.2.2.2.1 [([0x6E], [0x02])] (by decide),
    by decide, by decide⟩

/-- An evaluation of `Load`: a store that holds the key `6F` fails to load the
snapshot of block 10 from an empty object store and from one whose file does
not decode, and keeps its key; from the file saved by a store that holds the
key `6E` alone it comes back with that key and without its own. -/
theorem Load_examples :
    ((exampleFullKV [([0x6F], [0x01])]).Load exampleFileName 10).2
      = some StoreError.loadFullStore ∧
    (({ exampleFullKV [([0x6F], [0x01])] with
        store := { available := true,
                   files := [("0-10.kv", FileContent.undecodable [0x7B])] } } : FullKV).Load
      exampleFileName 10).2 = some StoreError.unmarshalData ∧
    (({ exampleFullKV [([0x6F], [0x01])] with
        store := ((exampleFullKV [([0x6E], [0x02])]).Save exampleFileName 10).1.store }
      : FullKV).Load exampleFileName 10).1.kv.get [0x6F] = none ∧
    (({ exampleFullKV [([0x6F], [0x01])] with
        store := ((exampleFullKV [([0x6E], [0x02])]).Save exampleFileName 10).1.store }
      : FullKV).Load exampleFileName 10).1.kv.get [0x6E] = some [0x02] := by
  decide

end Store

namespace Terminate

/-! ## Termination of a stream -/

theorem graceful_eq_false (err : Option Error) :
    ((!errorsIs err Error.ErrStopBlockReached && !errorsIs err Error.EOF) = true) ↔
      graceful err = false := by
  unfold graceful
  cases errorsIs err Error.ErrStopBlockReached <;> cases errorsIs err Error.EOF <;> simp

/-- C22: `OnStreamTerminated` returns nil exactly when the incoming error is the
stop-block-reached error or the end of file and the clean-up of the executors,
`EndOfStream` of the output cache and the flush of the stores all return nil;
in that case the calls made are, in order, the clean-up, the post-job hooks,
`EndOfStream` and then `flushStores` at the stop block number of the request;
for any other incoming error neither `EndOfStream` nor `flushStores` is called. -/
theorem C22_success_iff_graceful_and_flushed (calls : Calls) (p : Pipeline)
    (reqDetails : RequestDetails) (err : Option Error) :
    ((p.OnStreamTerminated calls reqDetails err).2 = none ↔
      ((errorsIs err Error.ErrStopBlockReached = true ∨ errorsIs err Error.EOF = true) ∧
        calls.cleanUpModuleExecutors = none ∧
        calls.EndOfStream p.lastFinalClock = none ∧
        calls.flushStores p.executionStages reqDetails.StopBlockNum = none)) ∧
    ((p.OnStreamTerminated calls reqDetails err).2 = none →
      (p.OnStreamTerminated calls reqDetails err).1 =
        [Event.cleanUpModuleExecutors, Event.runPostJobHooks p.lastFinalClock,
          Event.EndOfStream p.lastFinalClock,
          Event.flushStores p.executionStages reqDetails.StopBlockNum]) ∧
    (errorsIs err Error.ErrStopBlockReached = false → errorsIs err Error.EOF = false →
      ∀ ev ∈ (p.OnStreamTerminated calls reqDetails err).1,
        (∀ clock, ev ≠ Event.EndOfStream clock) ∧
        (∀ stages stopBlockNum, ev ≠ Event.flushStores stages stopBlockNum)) := by
  unfold Pipeline.OnStreamTerminated
  cases hc : calls.cleanUpModuleExecutors with
  | some e0 =>
    refine ⟨by simp, by simp, ?_⟩
    intro _ _ ev hev
    simp only [List.mem_singleton] at hev
    subst hev
    exact ⟨fun _ h => Event.noConfusion h, fun _ _ h => Event.noConfusion h⟩
  | none =>
    cases hs : errorsIs err Error.ErrStopBlockReached <;>
      cases he : errorsIs err Error.EOF <;>
      cases hend : calls.EndOfStream p.lastFinalClock <;>
      cases hflush : calls.flushStores p.executionStages reqDetails.StopBlockNum <;>
      cases err <;>
      simp_all

/-- Counterexample to C23 as stated: the incoming error is nil, which is neither
the stop-block-reached error nor the end of file, and the clean-up succeeds;
the returned error is not nil but a new error. -/
theorem C23_nil_error_counterexample :
    errorsIs none Error.ErrStopBlockReached = false ∧ errorsIs none Error.EOF = false ∧
    exampleCalls.cleanUpModuleExecutors = none ∧
    (examplePipeline.OnStreamTerminated exampleCalls { StopBlockNum := 10 } none).2 =
      some (Error.errorf "stream terminated without reaching the stop block") ∧
    (examplePipeline.OnStreamTerminated exampleCalls { StopBlockNum := 10 } none).2 ≠ none := by
  decide

/-- C23 (amended): when the clean-up of the executors succeeds and the incoming
error is neither the stop-block-reached error nor the end of file,
`OnStreamTerminated` returns the incoming error itself if it is not nil, and a
new error saying that the stream terminated without reaching the stop block if
it is nil. -/
theorem C23_original_error_returned (calls : Calls) (p : Pipeline)
    (reqDetails : RequestDetails) (err : Option Error)
    (hclean : calls.cleanUpModuleExecutors = none)
    (hstop : errorsIs err Error.ErrStopBlockReached = false)
    (heof : errorsIs err Error.EOF = false) :
    (p.OnStreamTerminated calls reqDetails err).2 =
      match err with
      | some e => some e
      | none => some (Error.errorf "stream terminated without reaching the stop block") := by
  unfold Pipeline.OnStreamTerminated
  simp only [hclean, hstop, heof]
  cases err <;> rfl

/-- Witness of C23 (amended): an error that wraps nothing is returned as it is. -/
theorem C23_original_error_returned_witness :
    (examplePipeline.OnStreamTerminated exampleCalls { StopBlockNum := 10 }
      (some (Error.errorf "connection lost"))).2 = some (Error.errorf "connection lost") :=
  C23_original_error_returned exampleCalls examplePipeline { StopBlockNum := 10 }
    (some (Error.errorf "connection lost")) rfl (by decide) (by decide)

/-- An evaluation of `OnStreamTerminated` on an end of file wrapped in another
error, with calls that all succeed: it returns nil after the four calls. -/
theorem OnStreamTerminated_example :
    examplePipeline.OnStreamTerminated exampleCalls { StopBlockNum := 10 }
      (some (Error.wrapf "reading blocks" Error.EOF)) =
    ([Event.cleanUpModuleExecutors, Event.runPostJobHooks (some { number := 9, id := "9a" }),
      Event.EndOfStream (some { number := 9, id := "9a" }),
      Event.flushStores [["map_m"], ["store_s"]] 10], none) := by
  decide

end Terminate
